import Mathlib

/-!
# WealthTrack portfolio aggregation and pivot engine — a verification development

Shallow embedding of the core data transforms of the WealthTrack-AI repository:
the time-series aggregator and breakdown aggregator (`src/components/Dashboard.tsx`),
the pivot table builder (`src/components/MasterDatabaseView.tsx`), the bulk row
parser (`src/components/BulkEntryView.tsx`), the snapshot merge engine and
income import (`src/App.tsx`), the form submission (`src/components/SnapshotForm.tsx`)
and the CSV exporters (`src/components/DataManagementView.tsx`,
`src/components/SettingsView.tsx`).

Modelling conventions:
* JavaScript numbers are modelled as `ℚ` (exact arithmetic; IEEE-754 rounding is
  abstracted away — every operation used by the code is addition and
  multiplication by fixed rate constants).
* JavaScript strings are modelled as Lean `String`; the string operations the
  code uses (`trim`, `toUpperCase`, `split`, lexicographic `<`) are implemented
  below by structural recursion over the character list so that they compute by
  kernel reduction.
* `uuidv4()` is modelled as drawing successive values from a counter threaded
  through the computation; no theorem depends on the concrete ids.
* JavaScript objects used as dictionaries are modelled as insertion-ordered
  association lists; `obj[k] = v` updates the first binding of `k` in place and
  otherwise appends, exactly like JS property assignment.
* `Array.prototype.sort` (a stable comparator sort) is modelled by a stable
  insertion sort; the theorems below only use that the result is a sorted
  permutation of the input.
-/

namespace WealthTrack

/-! ## String toolkit (models of the JS string operations used by the code) -/

/-- Model of JS `String.prototype.trim` (strip leading/trailing whitespace). -/
def jsTrim (s : String) : String :=
  ⟨((s.data.dropWhile Char.isWhitespace).reverse.dropWhile Char.isWhitespace).reverse⟩

/-- ASCII uppercase of one character (the only case mapping the data uses). -/
def upChar (c : Char) : Char :=
  if 'a' ≤ c ∧ c ≤ 'z' then Char.ofNat (c.toNat - 32) else c

/-- Model of JS `String.prototype.toUpperCase` on the ASCII range. -/
def jsToUpper (s : String) : String := ⟨s.data.map upChar⟩

/-- Lexicographic strict comparison of character lists: the semantics of the JS
`<` operator on strings (code-unit comparison; identical on the code points the
data contains). -/
def lexLt : List Char → List Char → Bool
  | [], [] => false
  | [], _ :: _ => true
  | _ :: _, [] => false
  | a :: as, b :: bs => if a < b then true else if b < a then false else lexLt as bs

/-- JS `a < b` on strings. -/
def jsLtB (a b : String) : Bool := lexLt a.data b.data

/-- JS `a > b` on strings. -/
def jsGtB (a b : String) : Bool := lexLt b.data a.data

/-- `a` may precede `b` in an ascending string sort (the negation of `b < a`). -/
def jsLeB (a b : String) : Bool := !(jsLtB b a)

/-- Strip `sep` from the front of `l`, if it is a prefix. -/
def stripPref : List Char → List Char → Option (List Char)
  | [], l => some l
  | _ :: _, [] => none
  | p :: ps, c :: cs => if c = p then stripPref ps cs else none

/-- One pass of splitting on a (non-empty) separator, fuelled for structural
termination; the fuel is always at least the length of the remaining input plus
one, so the `0` case is never reached. -/
def splitZ (sep : List Char) : Nat → List Char → List Char → List (List Char)
  | 0, _, cur => [cur.reverse]
  | _ + 1, [], cur => [cur.reverse]
  | fuel + 1, c :: cs, cur =>
    match stripPref sep (c :: cs) with
    | some rest => cur.reverse :: splitZ sep fuel rest []
    | none => splitZ sep fuel cs (c :: cur)

/-- Model of JS `String.prototype.split` with a non-empty string separator. -/
def jsSplit (s sep : String) : List String :=
  (splitZ sep.data (s.data.length + 1) s.data []).map (fun l => ⟨l⟩)

/-- Does the string contain the character? (JS `row.includes('\t')`.) -/
def jsHasChar (s : String) (c : Char) : Bool := s.data.contains c

/-- JS `a || b` for strings: `b` when `a` is empty (falsy), else `a`. -/
def jsOrS (a b : String) : String := if a = "" then b else a

/-- ASCII lowercase of one character. -/
def downChar (c : Char) : Char :=
  if 'A' ≤ c ∧ c ≤ 'Z' then Char.ofNat (c.toNat + 32) else c

/-- Model of JS `String.prototype.toLowerCase` on the ASCII range. -/
def jsToLower (s : String) : String := ⟨s.data.map downChar⟩

/-! ## Stable sort (model of `Array.prototype.sort`) -/

/-- Insert `x` into `l`, keeping it behind existing entries it does not strictly
precede — the insertion step of a stable insertion sort. -/
def insertLe {α : Type} (le : α → α → Bool) (x : α) : List α → List α
  | [] => [x]
  | y :: ys => if le x y then x :: y :: ys else y :: insertLe le x ys

/-- Stable insertion sort: the model of `Array.prototype.sort(comparator)`. -/
def jsSortBy {α : Type} (le : α → α → Bool) (l : List α) : List α :=
  l.foldr (insertLe le) []

/-! ## Association lists (model of JS objects used as dictionaries) -/

/-- Property read `obj[k]`. -/
def alookup {β : Type} (k : String) : List (String × β) → Option β
  | [] => none
  | (k', v) :: rest => if k' = k then some v else alookup k rest

/-- Property write `obj[k] = v`: overwrite the first binding in place, else
append (JS objects preserve insertion order). -/
def aset {β : Type} (k : String) (v : β) : List (String × β) → List (String × β)
  | [] => [(k, v)]
  | (k', v') :: rest => if k' = k then (k, v) :: rest else (k', v') :: aset k v rest

/-! ## Data model (src/types.ts) -/

/-- `AssetItem` of `src/types.ts` (ids drawn from the fresh-id counter). -/
structure AssetItem where
  id : Nat
  category : String
  name : String
  value : ℚ
  currency : String
  tags : List String
deriving Repr, DecidableEq

/-- `Snapshot` of `src/types.ts`. -/
structure Snapshot where
  id : Nat
  date : String
  familyMember : String
  items : List AssetItem
  note : Option String
  totalValue : ℚ
deriving Repr, DecidableEq

/-- `IncomeRecord` of `src/types.ts`. -/
structure IncomeRecord where
  id : Nat
  date : String
  category : String
  name : String
  value : ℚ
  familyMember : String
  currency : String
deriving Repr, DecidableEq

/-! ## Currency normalizer (the `RATES` table of Dashboard.tsx /
MasterDatabaseView.tsx) -/

/-- The static rate table. -/
def RATES : List (String × ℚ) :=
  [("USD", 1), ("EUR", 105/100), ("GBP", 125/100), ("CAD", 74/100),
   ("AUD", 65/100), ("CNY", 14/100), ("JPY", 67/10000), ("SGD", 73/100),
   ("INR", 12/1000)]

/-- `RATES[currency?.toUpperCase()] || 1`: unknown codes default to rate 1.
The `|| 1` also replaces a falsy (zero) hit by 1; every table entry is nonzero,
so that branch is inert. -/
def rateFor (currency : String) : ℚ :=
  match alookup (jsToUpper currency) RATES with
  | some r => if r = 0 then 1 else r
  | none => 1

/-! ## Number-to-string rendering -/

/-- Decimal digits of a natural number (fuelled structural recursion so that it
computes by kernel reduction). -/
def natDigits : Nat → Nat → List Char
  | 0, _ => []
  | fuel + 1, n => if n = 0 then [] else natDigits fuel (n / 10) ++ [Char.ofNat (48 + n % 10)]

/-- Decimal rendering of a natural number. -/
def natStr (n : Nat) : String := if n = 0 then "0" else ⟨natDigits (n + 1) n⟩

/-- Rendering of a JS number as a string, used where the code coerces a number
into a string (the income-record dedup signature, string concatenation). It is
an exact rendering of the rational, not bit-for-bit JS float formatting; every
theorem below uses it only as a function of the value. -/
def numStr (q : ℚ) : String :=
  (if q < 0 then "-" else "") ++ natStr q.num.natAbs ++
    (if q.den = 1 then "" else "/" ++ natStr q.den)

/-! ## Filter state (the Dashboard / MasterDatabaseView selects) -/

/-- The four filter selects shared by Dashboard.tsx and MasterDatabaseView.tsx:
category and member (`"All"` = no restriction) and a month range
(`YYYY-MM` strings, `""` = unbounded). -/
structure Filter where
  filterCategory : String
  filterMember : String
  filterStartDate : String
  filterEndDate : String
deriving Repr, DecidableEq

/-- The member / date-range guard of Dashboard.tsx lines 107–112 (and,
identically, lines 138–143): month bounds are compared lexicographically
against the snapshot date with `-01` / `-31` appended; an empty (falsy) bound
is ignored. -/
def passesMemberDate (f : Filter) (s : Snapshot) : Bool :=
  (f.filterMember == "All" || s.familyMember == f.filterMember) &&
  (f.filterStartDate == "" || !jsLtB s.date (f.filterStartDate ++ "-01")) &&
  (f.filterEndDate == "" || !jsGtB s.date (f.filterEndDate ++ "-31"))

/-! ## Time-series aggregator (`chartData` of Dashboard.tsx, lines 103–133)

The per-date record is a JS object: a string field `date`, a number field
`total`, and dynamically added number keys. JS objects have a single string
key space, so an item key equal to `"date"` or `"total"` collides with those
fields; the model keeps the value space `JSVal` to reflect this. -/

inductive JSVal where
  | num (q : ℚ)
  | str (s : String)
deriving Repr, DecidableEq

/-- JS truthiness of a value (`0` and `""` are falsy). -/
def JSVal.truthy : JSVal → Bool
  | .num q => q != 0
  | .str s => s != ""

/-- JS `x || 0`. -/
def jsOrZero : Option JSVal → JSVal
  | some v => if v.truthy then v else .num 0
  | none => .num 0

/-- JS `a + v` for a number `v`: number addition, or string concatenation after
coercing `v` when the current value is a string. -/
def JSVal.addNum : JSVal → ℚ → JSVal
  | .num x, q => .num (x + q)
  | .str s, q => .str (s ++ numStr q)

abbrev JSObj := List (String × JSVal)

/-- The pivot key of an item in the time series: its category, or its name once
a single category is selected (Dashboard.tsx line 119). -/
def itemKey (f : Filter) (i : AssetItem) : String :=
  if f.filterCategory = "All" then i.category else i.name

/-- The category guard of Dashboard.tsx line 120. -/
def itemPasses (f : Filter) (i : AssetItem) : Bool :=
  f.filterCategory == "All" || i.category == f.filterCategory

/-- Normalized value of an item (Dashboard.tsx lines 121–122). -/
def normValue (i : AssetItem) : ℚ := i.value * rateFor i.currency

/-- Fold one item into the per-date record (Dashboard.tsx lines 118–127):
`rec[key] = (rec[key] || 0) + v; rec.total += v` under the category guard.
The `total` field is initialized at record creation, so the `.getD (.num 0)`
default on the `+=` is inert. -/
def addItem (f : Filter) (ob : JSObj) (i : AssetItem) : JSObj :=
  if itemPasses f i then
    let key := itemKey f i
    let v := normValue i
    let ob1 := aset key ((jsOrZero (alookup key ob)).addNum v) ob
    aset "total" (((alookup "total" ob1).getD (.num 0)).addNum v) ob1
  else ob

/-- The per-date record created on first sight of a date
(Dashboard.tsx line 115). -/
def emptyRecord (date : String) : JSObj := [("date", .str date), ("total", .num 0)]

/-- Modify the (first) binding of `k` in place, JS-object style. -/
def amodify {β : Type} (k : String) (g : β → β) : List (String × β) → List (String × β)
  | [] => []
  | (k', v) :: rest => if k' = k then (k', g v) :: rest else (k', v) :: amodify k g rest

/-- Fold one snapshot into the date-grouped accumulator
(Dashboard.tsx lines 106–128). -/
def addSnapshot (f : Filter) (acc : List (String × JSObj)) (s : Snapshot) :
    List (String × JSObj) :=
  if passesMemberDate f s then
    let acc1 := if (alookup s.date acc).isSome then acc
                else acc ++ [(s.date, emptyRecord s.date)]
    amodify s.date (fun ob => s.items.foldl (addItem f) ob) acc1
  else acc

/-- The date field of an emitted record, used as its sort key. -/
def recDateStr (ob : JSObj) : String :=
  match alookup "date" ob with
  | some (.str s) => s
  | some (.num q) => numStr q
  | none => ""

/-- `chartData` of Dashboard.tsx lines 103–133: group the filtered snapshots by
date, accumulate normalized per-key and total values, and emit the records
sorted ascending. The source sorts by `new Date(date).getTime()`; the model
sorts by the date string, which induces the same order on well-formed
`YYYY-MM-DD` dates, and every property proved below is invariant under the
permutation performed by the sort. -/
def chartData (f : Filter) (snapshots : List Snapshot) : List JSObj :=
  jsSortBy (fun a b => jsLeB (recDateStr a) (recDateStr b))
    ((snapshots.foldl (addSnapshot f) []).map Prod.snd)

/-! ## Breakdown aggregator (`pieDataInfo` of Dashboard.tsx, lines 136–205) -/

/-- One slice datum: `value` sizes the slice, `originalValue` keeps the signed
figure for display. -/
structure PieEntry where
  name : String
  value : ℚ
  originalValue : ℚ
deriving Repr, DecidableEq

/-- The result of the breakdown aggregator. -/
structure PieInfo where
  assets : List PieEntry
  liabilities : List PieEntry
  date : Option String
deriving Repr, DecidableEq

/-- Aggregation name of an item: trimmed name, falling back to the category
when blank (Dashboard.tsx line 161). -/
def pieName (i : AssetItem) : String := jsOrS (jsTrim i.name) i.category

/-- `m[k] = (m[k] || 0) + v` on a plain number dictionary. -/
def bump (k : String) (v : ℚ) : List (String × ℚ) → List (String × ℚ)
  | [] => [(k, v)]
  | (k', x) :: rest =>
    if k' = k then (k', (if x = 0 then 0 else x) + v) :: rest
    else (k', x) :: bump k v rest

/-- The per-name aggregate of the latest matching date
(Dashboard.tsx lines 152–163). -/
def aggByName (f : Filter) (relevant : List Snapshot) (latestDate : String) :
    List (String × ℚ) :=
  (((relevant.filter (fun s => s.date = latestDate)).flatMap (fun s => s.items)).filter
      (itemPasses f)).foldl (fun m i => bump (pieName i) (normValue i) m) []

/-- Collapse a partition beyond 10 entries into a trailing `"Others"` entry
(Dashboard.tsx lines 189–202); `val`/`orig` pick the figures summed for it. -/
def capTen (l : List PieEntry) (val orig : PieEntry → ℚ) : List PieEntry :=
  if 10 < l.length then
    l.take 10 ++ [{ name := "Others", value := ((l.drop 10).map val).sum,
                    originalValue := ((l.drop 10).map orig).sum }]
  else l

/-- The latest date of the filtered snapshots (Dashboard.tsx lines 147–149):
the last entry of the default-sorted (string-ascending) date list; `""` only
when there is no snapshot at all. -/
def latestMatchingDate (f : Filter) (snapshots : List Snapshot) : String :=
  ((jsSortBy jsLeB ((snapshots.filter (passesMemberDate f)).map
      (fun s => s.date))).getLast?).getD ""

/-- `pieDataInfo` of Dashboard.tsx lines 136–205. -/
def pieDataInfo (f : Filter) (snapshots : List Snapshot) : PieInfo :=
  let relevant := snapshots.filter (passesMemberDate f)
  if relevant.length = 0 then { assets := [], liabilities := [], date := none }
  else
    let latestDate := latestMatchingDate f snapshots
    let rawData := aggByName f relevant latestDate
    let assets0 := (rawData.filter (fun p => decide (0 < p.2))).map
        (fun p => ({ name := p.1, value := p.2, originalValue := p.2 } : PieEntry))
    let assets := capTen (jsSortBy (fun a b => decide (b.value ≤ a.value)) assets0)
        (fun e => e.value) (fun e => e.value)
    let liab0 := (rawData.filter (fun p => decide (p.2 < 0))).map
        (fun p => ({ name := p.1, value := abs p.2, originalValue := p.2 } : PieEntry))
    let liabilities := capTen (jsSortBy (fun a b => decide (b.value ≤ a.value)) liab0)
        (fun e => e.value) (fun e => e.originalValue)
    { assets := assets, liabilities := liabilities, date := some latestDate }

/-! ## Pivot table builder (MasterDatabaseView.tsx) -/

/-- The snapshot-level filter of MasterDatabaseView.tsx lines 73–79: member,
date range, and "some item has the selected category". -/
def mdbSnapshotPasses (f : Filter) (s : Snapshot) : Bool :=
  passesMemberDate f s &&
  (f.filterCategory == "All" || s.items.any (fun i => i.category == f.filterCategory))

/-- The income-record filter of MasterDatabaseView.tsx lines 81–87. -/
def mdbIncomePasses (f : Filter) (r : IncomeRecord) : Bool :=
  (f.filterMember == "All" || r.familyMember == f.filterMember) &&
  (f.filterStartDate == "" || !jsLtB r.date (f.filterStartDate ++ "-01")) &&
  (f.filterEndDate == "" || !jsGtB r.date (f.filterEndDate ++ "-31")) &&
  (f.filterCategory == "All" || r.category == f.filterCategory)

/-- Pivot column key (MasterDatabaseView.tsx lines 99 and 130):
`"name (category)"`, or `"category (Misc)"` when the trimmed name is blank. -/
def colKey (name category : String) : String :=
  if jsTrim name = "" then category ++ " (Misc)"
  else jsTrim name ++ " (" ++ category ++ ")"

/-- One step of `new Set(...)` construction: add if absent. -/
def dedupStep (acc : List String) (d : String) : List String :=
  if d ∈ acc then acc else acc ++ [d]

/-- Distinct values in first-occurrence order (`Array.from(new Set(...))`). -/
def dedupKeep (l : List String) : List String := l.foldl dedupStep []

/-- The distinct pivot dates, ascending (MasterDatabaseView.tsx line 117). -/
def pivotDates (dates : List String) : List String := jsSortBy jsLeB (dedupKeep dates)

/-- Column headers of the asset pivot (MasterDatabaseView.tsx lines 93–113):
the sorted distinct column keys of the filtered items. -/
def assetColumnHeaders (f : Filter) (snapshots : List Snapshot) : List String :=
  jsSortBy jsLeB (dedupKeep
    ((((snapshots.filter (mdbSnapshotPasses f)).flatMap (fun s => s.items)).filter
        (itemPasses f)).map (fun i => colKey i.name i.category)))

/-- Column headers of the income pivot. -/
def incomeColumnHeaders (f : Filter) (records : List IncomeRecord) : List String :=
  jsSortBy jsLeB (dedupKeep
    ((records.filter (mdbIncomePasses f)).map (fun r => colKey r.name r.category)))

/-- One row of the pivot: absent keys of `values` are the "no value" sentinel
(rendered `-`), distinct from a present `0`. -/
structure PivotRow where
  date : String
  values : List (String × ℚ)
  total : ℚ
deriving Repr, DecidableEq

/-- The guarded per-item update of an asset pivot row
(MasterDatabaseView.tsx lines 126–135). -/
def rowAddItem (f : Filter) (m : List (String × ℚ)) (i : AssetItem) :
    List (String × ℚ) :=
  if itemPasses f i then bump (colKey i.name i.category) (normValue i) m else m

/-- The items contributing to the asset pivot row of date `d`. -/
def dayItems (f : Filter) (snapshots : List Snapshot) (d : String) : List AssetItem :=
  ((snapshots.filter (mdbSnapshotPasses f)).filter (fun s => s.date = d)).flatMap
    (fun s => s.items)

/-- The asset pivot row of one date (MasterDatabaseView.tsx lines 119–137,
asset branch). -/
def assetRow (f : Filter) (snapshots : List Snapshot) (d : String) : PivotRow :=
  { date := d
    values := (dayItems f snapshots d).foldl (rowAddItem f) []
    total := (dayItems f snapshots d).foldl
      (fun t i => if itemPasses f i then t + normValue i else t) 0 }

/-- The asset pivot rows (MasterDatabaseView.tsx lines 116–158, asset branch). -/
def assetRows (f : Filter) (snapshots : List Snapshot) : List PivotRow :=
  (pivotDates ((snapshots.filter (mdbSnapshotPasses f)).map (fun s => s.date))).map
    (assetRow f snapshots)

/-- The income records contributing to the income pivot row of date `d`. -/
def dayRecords (f : Filter) (records : List IncomeRecord) (d : String) :
    List IncomeRecord :=
  (records.filter (mdbIncomePasses f)).filter (fun r => r.date = d)

/-- The income pivot row of one date (MasterDatabaseView.tsx lines 138–147):
the value is taken raw — "Assume USD for Income for now as defined in
BulkEntry" — with no rate applied. -/
def incomeRow (f : Filter) (records : List IncomeRecord) (d : String) : PivotRow :=
  { date := d
    values := (dayRecords f records d).foldl
      (fun m r => bump (colKey r.name r.category) r.value m) []
    total := (dayRecords f records d).foldl (fun t r => t + r.value) 0 }

/-- The income pivot rows. -/
def incomeRows (f : Filter) (records : List IncomeRecord) : List PivotRow :=
  (pivotDates ((records.filter (mdbIncomePasses f)).map (fun r => r.date))).map
    (incomeRow f records)

/-! ## Bulk row parser (`handleParse` of BulkEntryView.tsx, snapshot branch) -/

/-- A staged import row (`BulkImportItem` of BulkEntryView.tsx). -/
structure BulkImportItem where
  id : Nat
  date : String
  category : String
  name : String
  value : ℚ
  familyMember : String
  currency : String
deriving Repr, DecidableEq

/-- Split a raw line into trimmed columns: tab-delimited if the line contains a
tab, else comma-delimited. -/
def splitRow (row : String) : List String :=
  let delim : String := if jsHasChar row '\t' then "\t" else ","
  (jsSplit row delim).map jsTrim

/-- `valueStr.replace(/[^0-9.-]/g, '')`: keep only digits, `.` and `-`. -/
def stripValueChars (s : String) : String :=
  ⟨s.data.filter (fun c => c.isDigit || c = '.' || c = '-')⟩

/-- Numeric value of a digit list. -/
def digitsVal (l : List Char) : Nat := l.foldl (fun a c => a * 10 + (c.toNat - 48)) 0

/-- `parseFloat` restricted to strings over digits, `.` and `-` — the exact
codomain of `stripValueChars`: an optional leading `-`, then the longest
`digits [ . digits ]` prefix of what remains; `none` (NaN) when that prefix
contains no digit. On this alphabet the model agrees with JS `parseFloat`,
except that the value is kept exact instead of rounded to binary64. -/
def parseFloatStripped (s : String) : Option ℚ :=
  let p := match s.data with
    | '-' :: rest => (true, rest)
    | l => (false, l)
  let intPart := p.2.takeWhile Char.isDigit
  let restChars := p.2.drop intPart.length
  let fracPart := match restChars with
    | '.' :: r => r.takeWhile Char.isDigit
    | _ => []
  if intPart.isEmpty && fracPart.isEmpty then none
  else
    let mag : ℚ := (digitsVal intPart : ℚ) + (digitsVal fracPart : ℚ) / ((10 : ℚ) ^ fracPart.length)
    some (if p.1 then -mag else mag)

/-- One line of the snapshot-import branch of `handleParse`, without pushing:
`some` is a pushed row (carrying the id `idv` for the generated uuid), `none` a
silently dropped one. `jsDate` is the host's date recognizer — `new Date(s)`
followed by `toISOString().split('T')[0]` normalization, `none` when
`getTime()` is NaN — and `today` is the current date already normalized; both
are parameters because JS `Date` parsing is host-defined. -/
def parseRowSnapshot (jsDate : String → Option String) (today : String)
    (categories familyMembers : List String) (idv : Nat) (row : String) :
    Option BulkImportItem :=
  let cols := splitRow row
  if 3 ≤ cols.length then
    let date := match jsDate (cols.getD 0 "") with
      | some d => d
      | none => today
    let category := jsOrS (cols.getD 1 "") "Other"
    let name := jsOrS (cols.getD 2 "") category
    let valueStr := jsOrS (cols.getD 3 "") "0"
    let familyMember := jsOrS (cols.getD 4 "") (jsOrS (familyMembers.getD 0 "") "Me")
    let currency := jsOrS (cols.getD 5 "") "USD"
    match parseFloatStripped (stripValueChars valueStr) with
    | some v =>
      let canon := match categories.find? (fun c => jsToLower c == jsToLower category) with
        | some c => jsOrS c category
        | none => category
      some { id := idv, date := date, category := canon, name := name, value := v,
             familyMember := familyMember, currency := currency }
    | none => none
  else none

/-- The whole snapshot-branch parse: split the trimmed text into lines and push
the rows that survive, numbering the generated ids from `fresh`. -/
def handleParseSnapshot (jsDate : String → Option String) (today : String)
    (categories familyMembers : List String) (inputText : String) (fresh : Nat) :
    List BulkImportItem :=
  ((jsSplit (jsTrim inputText) "\n").foldl
    (fun (acc : List BulkImportItem × Nat) row =>
      match parseRowSnapshot jsDate today categories familyMembers acc.2 row with
      | some it => (acc.1 ++ [it], acc.2 + 1)
      | none => acc)
    ([], fresh)).1

/-! ## App-level state and import handlers (src/App.tsx) -/

/-- The collections owned by the App component that the handlers read and
replace, plus the fresh-id counter modelling `uuidv4()`. -/
structure AppState where
  categories : List String
  incomeCategories : List String
  familyMembers : List String
  snapshots : List Snapshot
  incomeRecords : List IncomeRecord
  fresh : Nat
deriving Repr, DecidableEq

/-- The registry side effect of the import handlers (App.tsx lines 306–318 and
349–357): fold the trimmed staged values over the known list seeded through
`new Set(...)` (dedup, first occurrence kept), appending each non-blank value
that is absent; the boolean is the `catsChanged`/`membersChanged` flag. -/
def regStep (acc : List String × Bool) (v : String) : List String × Bool :=
  if v ≠ "" ∧ v ∉ acc.1 then (acc.1 ++ [v], true) else acc

/-- See `regStep`: the fold over the staged values, seeded with the
deduplicated known registry and a lowered changed-flag. -/
def registerValues (known : List String) (vals : List String) : List String × Bool :=
  vals.foldl regStep (dedupKeep known, false)

/-- Append the item to the group of key `k`, keeping group insertion order
(JS object key order). -/
def groupPush (k : String) (it : BulkImportItem) :
    List (String × List BulkImportItem) → List (String × List BulkImportItem)
  | [] => [(k, [it])]
  | (k', l) :: rest =>
    if k' = k then (k', l ++ [it]) :: rest else (k', l) :: groupPush k it rest

/-- The composite grouping key of App.tsx line 323. -/
def rowKey (it : BulkImportItem) : String := it.date ++ "::" ++ it.familyMember

/-- `groupedData` of App.tsx lines 321–326. -/
def groupByKey (items : List BulkImportItem) : List (String × List BulkImportItem) :=
  items.foldl (fun acc it => groupPush (rowKey it) it acc) []

/-- Replace the first element satisfying `p` (the `findIndex` + index
assignment of App.tsx lines 331–338); `none` when nothing matches. -/
def replaceFirst {α : Type} (p : α → Bool) (g : α → α) : List α → Option (List α)
  | [] => none
  | x :: rest =>
    if p x then some (g x :: rest)
    else (replaceFirst p g rest).map (fun l => x :: l)

/-- The asset items built from one group (App.tsx lines 332–334), ids drawn
from the counter. -/
def groupAssets (fresh : Nat) (items : List BulkImportItem) : List AssetItem :=
  items.enum.map (fun p =>
    { id := fresh + p.1, category := p.2.category, name := p.2.name,
      value := p.2.value, currency := p.2.currency, tags := [] })

/-- The date half that the merge engine reads back out of a composite key
(`key.split('::')`, first part). -/
def keyDate (k : String) : String := (jsSplit k "::").getD 0 ""

/-- The member half that the merge engine reads back out of a composite key
(second part). -/
def keyMember (k : String) : String := (jsSplit k "::").getD 1 ""

/-- The `findIndex` predicate of App.tsx line 331: same date and member. -/
def keyPred (date member : String) (s : Snapshot) : Bool :=
  s.date == date && s.familyMember == member

/-- The wholesale overwrite applied to the found same-key snapshot
(App.tsx line 338). -/
def overwriteSnap (newAssets : List AssetItem) (s : Snapshot) : Snapshot :=
  { s with
    items := newAssets
    totalValue := newAssets.foldl (fun sum a => sum + a.value) 0
    note := some "Updated via Bulk Import" }

/-- The snapshot appended when no same-key snapshot exists (App.tsx line 340). -/
def appendedSnap (idv : Nat) (date member : String) (newAssets : List AssetItem) :
    Snapshot :=
  { id := idv, date := date, familyMember := member, items := newAssets,
    note := some "Imported via Bulk Entry",
    totalValue := newAssets.foldl (fun sum a => sum + a.value) 0 }

/-- Fold one `date::member` group into the snapshot list
(App.tsx lines 328–342), threading the fresh-id counter: overwrite the first
same-key snapshot wholesale, else append a new one. -/
def mergeGroup (snaps : List Snapshot) (fresh : Nat) (key : String)
    (items : List BulkImportItem) : List Snapshot × Nat :=
  let newAssets := groupAssets fresh items
  match replaceFirst (keyPred (keyDate key) (keyMember key))
      (overwriteSnap newAssets) snaps with
  | some l => (l, fresh + items.length)
  | none =>
    (snaps ++ [appendedSnap (fresh + items.length) (keyDate key) (keyMember key)
      newAssets], fresh + items.length + 1)

/-- `handleBulkImport` of App.tsx lines 305–346. -/
def handleBulkImport (st : AppState) (importItems : List BulkImportItem) : AppState :=
  let cats := registerValues st.categories (importItems.map (fun i => jsTrim i.category))
  let mems := registerValues st.familyMembers (importItems.map (fun i => jsTrim i.familyMember))
  let merged := (groupByKey importItems).foldl
    (fun acc g => mergeGroup acc.1 acc.2 g.1 g.2) (st.snapshots, st.fresh)
  { st with
    categories := if cats.2 then cats.1 else st.categories
    familyMembers := if mems.2 then mems.1 else st.familyMembers
    snapshots := merged.1
    fresh := merged.2 }

/-- The dedup signature of App.tsx line 359:
`` `${date}-${category}-${name}-${value}` ``. -/
def incomeSig (r : IncomeRecord) : String :=
  r.date ++ "-" ++ r.category ++ "-" ++ r.name ++ "-" ++ numStr r.value

/-- `handleImportIncome` of App.tsx lines 348–363: register staged categories,
then append only the records whose signature is not already present. -/
def handleImportIncome (st : AppState) (items : List IncomeRecord) : AppState :=
  let cats := registerValues st.incomeCategories (items.map (fun i => jsTrim i.category))
  let sigs := st.incomeRecords.map incomeSig
  let newItems := items.filter (fun r => !(sigs.contains (incomeSig r)))
  { st with
    incomeCategories := if cats.2 then cats.1 else st.incomeCategories
    incomeRecords := st.incomeRecords ++ newItems }

/-! ## Snapshot form submission (`handleSubmit` of SnapshotForm.tsx, lines
51–63) -/

/-- The snapshot saved by the form: the total is computed over ALL form rows,
after which rows with a blank name are removed from the saved items
("Remove empty rows"). `Number(x)` on an already numeric value is the identity
and is dropped. -/
def snapshotFormSubmit (idv : Nat) (date familyMember note : String)
    (items : List AssetItem) : Snapshot :=
  { id := idv, date := date, familyMember := familyMember
    items := items.filter (fun i => jsTrim i.name != "")
    note := some note
    totalValue := items.foldl (fun sum i => sum + i.value) 0 }

/-! ## CSV export (`handleExportData` of DataManagementView.tsx lines 162–208,
`handleExportCSV` of SettingsView.tsx lines 263–286 — identical row logic) -/

/-- `replace(/,/g, ' ')`: every comma becomes a space. -/
def sanitizeField (s : String) : String :=
  ⟨s.data.map (fun c => if c = ',' then ' ' else c)⟩

/-- JS `Array.prototype.join`. -/
def jsJoin (sep : String) : List String → String
  | [] => ""
  | [x] => x
  | x :: y :: rest => x ++ sep ++ jsJoin sep (y :: rest)

/-- The header row both exporters emit. -/
def csvHeader : String :=
  jsJoin "," ["Date", "Category", "Name", "Value", "Family Member", "Currency"]

/-- One exported asset row: the free-text name/category/member fields are
comma-sanitized (`x || ''` on a string is the identity and is dropped); date
and currency are joined as-is, and the numeric value is stringified by the
join. -/
def assetCsvRow (s : Snapshot) (i : AssetItem) : String :=
  jsJoin "," [s.date, sanitizeField i.category, sanitizeField i.name,
              numStr i.value, sanitizeField (jsOrS s.familyMember "Me"),
              jsOrS i.currency "USD"]

/-- All exported asset rows (`snapshots.flatMap(s => s.items.map(...))`). -/
def assetCsvRows (snapshots : List Snapshot) : List String :=
  snapshots.flatMap (fun s => s.items.map (assetCsvRow s))

/-- The full asset CSV: `[header.join(','), ...rows].join('\n')`. -/
def assetCsv (snapshots : List Snapshot) : String :=
  jsJoin "\n" (csvHeader :: assetCsvRows snapshots)

/-- One exported income row (DataManagementView.tsx lines 192–204). -/
def incomeCsvRow (r : IncomeRecord) : String :=
  jsJoin "," [r.date, sanitizeField r.category, sanitizeField r.name,
              numStr r.value, sanitizeField (jsOrS r.familyMember "Me"),
              jsOrS r.currency "USD"]

/-- All exported income rows (one per record). -/
def incomeCsvRows (records : List IncomeRecord) : List String :=
  records.map incomeCsvRow

/-- The full income CSV. -/
def incomeCsv (records : List IncomeRecord) : String :=
  jsJoin "\n" (csvHeader :: incomeCsvRows records)

/-! ## Observables and specification-side aggregates

The `spec…` definitions below follow the SPECIFICATION's words (spec.md
sections 4.5–4.7 and 8), independently of the component implementations; the
theorems compare the two. -/

/-- The `total` field of an emitted time-series record. -/
def recTotal (ob : JSObj) : ℚ :=
  match alookup "total" ob with
  | some (.num q) => q
  | _ => 0

/-- Spec: "the sum of all per-key values" of one emitted record — every
binding except the `date` and `total` fields (string-valued bindings, which
can only arise from a key collision with `date`, count 0). -/
def specRecordKeySum (ob : JSObj) : ℚ :=
  (ob.filter (fun p => p.1 != "date" && p.1 != "total")).foldl
    (fun a p => a + match p.2 with | .num q => q | .str _ => 0) 0

/-- The numeric worth of one record binding towards the per-key sum: the
reserved `date`/`total` fields and string values count 0. -/
def entryVal (p : String × JSVal) : ℚ :=
  if p.1 = "date" ∨ p.1 = "total" then 0
  else
    match p.2 with
    | .num q => q
    | .str _ => 0

/-- The sum of the dynamic numeric bindings of a record. -/
def entrySum (ob : JSObj) : ℚ := (ob.map entryVal).sum

/-- Well-formedness of a per-date record, maintained by the aggregation as
long as no item key collides with the reserved fields: distinct keys, a
numeric `total` field equal to the sum of the dynamic bindings, and numeric
values everywhere but `date`. -/
def recWF (ob : JSObj) : Prop :=
  (ob.map Prod.fst).Nodup ∧
  alookup "total" ob = some (.num (entrySum ob)) ∧
  ∀ p ∈ ob, p.1 ≠ "date" → ∃ q, p.2 = .num q

/-- The running sum of the `total` fields of the grouped records. -/
def chartSum (acc : List (String × JSObj)) : ℚ :=
  (acc.map (fun p => recTotal p.2)).sum

/-- An item key avoiding the reserved record fields. -/
def keyOK (f : Filter) (i : AssetItem) : Prop :=
  itemKey f i ≠ "date" ∧ itemKey f i ≠ "total"

/-- Spec: "the normalized sum of every item across S matching F". -/
def specMatchedNormSum (f : Filter) (snapshots : List Snapshot) : ℚ :=
  ((snapshots.filter (passesMemberDate f)).map (fun s =>
      ((s.items.filter (itemPasses f)).map normValue).sum)).sum

/-- Spec: "the sum of all positive items on that date passing the filter"
(normalized; the rates are positive, so an item is positive-valued exactly
when its normalized value is). -/
def specPosItemsSum (f : Filter) (relevant : List Snapshot) (d : String) : ℚ :=
  ((((relevant.filter (fun s => s.date = d)).flatMap (fun s => s.items)).filter
      (fun i => itemPasses f i && decide (0 < i.value))).map normValue).sum

/-- Spec: the magnitude sum of the negative items on that date passing the
filter. -/
def specNegItemsSum (f : Filter) (relevant : List Snapshot) (d : String) : ℚ :=
  ((((relevant.filter (fun s => s.date = d)).flatMap (fun s => s.items)).filter
      (fun i => itemPasses f i && decide (i.value < 0))).map (fun i => -normValue i)).sum

/-- The positive per-name aggregates of the latest matching date (the corrected
reading of the breakdown partition-sum guarantee). -/
def specPosAggSum (f : Filter) (relevant : List Snapshot) (d : String) : ℚ :=
  (((aggByName f relevant d).filter (fun p => decide (0 < p.2))).map (fun p => p.2)).sum

/-- The magnitude sum of the negative per-name aggregates. -/
def specNegAggSum (f : Filter) (relevant : List Snapshot) (d : String) : ℚ :=
  (((aggByName f relevant d).filter (fun p => decide (p.2 < 0))).map (fun p => -p.2)).sum

/-- The signed sum of the negative per-name aggregates. -/
def specNegAggOrigSum (f : Filter) (relevant : List Snapshot) (d : String) : ℚ :=
  (((aggByName f relevant d).filter (fun p => decide (p.2 < 0))).map (fun p => p.2)).sum

/-- The normalized contributions of the latest-date filtered items aggregated
under one breakdown name (trimmed item name, falling back to the category). -/
def specNameContribs (f : Filter) (relevant : List Snapshot) (d k : String) :
    List ℚ :=
  ((((relevant.filter (fun s => s.date = d)).flatMap (fun s => s.items)).filter
      (itemPasses f)).filter (fun i => pieName i == k)).map normValue

/-- The normalized contributions of the asset items matching one
(date, column-key) pivot cell. -/
def specAssetCellContribs (f : Filter) (snapshots : List Snapshot) (d col : String) :
    List ℚ :=
  ((dayItems f snapshots d).filter
      (fun i => itemPasses f i && (colKey i.name i.category == col))).map normValue

/-- The raw (un-normalized) contributions of the income records matching one
(date, column-key) pivot cell. -/
def specIncomeCellContribs (f : Filter) (records : List IncomeRecord) (d col : String) :
    List ℚ :=
  ((dayRecords f records d).filter
      (fun r => colKey r.name r.category == col)).map (fun r => r.value)

/-- The id-free view of an asset item. -/
def itemView (i : AssetItem) : String × String × ℚ × String :=
  (i.category, i.name, i.value, i.currency)

/-- The view of a staged row as the asset item it becomes. -/
def rowView (r : BulkImportItem) : String × String × ℚ × String :=
  (r.category, r.name, r.value, r.currency)

/-- The observable content of a snapshot: date, member, item views and total —
forgetting the generated ids and the note text. -/
def snapView (s : Snapshot) : String × String × List (String × String × ℚ × String) × ℚ :=
  (s.date, s.familyMember, s.items.map itemView, s.totalValue)

/-- The snapshots holding one (date, familyMember) key, in order. -/
def selRaw (snaps : List Snapshot) (d m : String) : List Snapshot :=
  snaps.filter (keyPred d m)

/-- The snapshots holding one (date, familyMember) key, in order, as views. -/
def selView (snaps : List Snapshot) (d m : String) :
    List (String × String × List (String × String × ℚ × String) × ℚ) :=
  (selRaw snaps d m).map snapView

/-- At most one snapshot per (date, familyMember) key. -/
def uniqKeys (snaps : List Snapshot) : Prop :=
  snaps.Pairwise (fun a b => ¬(a.date = b.date ∧ a.familyMember = b.familyMember))

/-- The filter-level reading of key uniqueness the proofs thread through the
merge fold. -/
def qKeys (snaps : List Snapshot) : Prop :=
  ∀ d m, (selRaw snaps d m).length ≤ 1

/-- The composite key of a staged row splits back into its two fields; this
holds exactly when neither field lets `"::"` creep into the key ambiguously. -/
def goodRow (r : BulkImportItem) : Prop :=
  jsSplit (rowKey r) "::" = [r.date, r.familyMember]

/-- The staged rows of one (date, familyMember) key, in input order. -/
def rowsOfKey (rows : List BulkImportItem) (d m : String) : List BulkImportItem :=
  rows.filter (fun r => r.date == d && r.familyMember == m)

/-- The snapshot view a merged key should carry: the key's rows as items, with
their raw value sum as total. -/
def groupView (rows : List BulkImportItem) (d m : String) :
    String × String × List (String × String × ℚ × String) × ℚ :=
  (d, m, (rowsOfKey rows d m).map rowView,
   ((rowsOfKey rows d m).map (fun r => r.value)).sum)

/-! ## Concrete inputs used by witnesses and counterexamples -/

/-- An asset item literal (id 0; ids are irrelevant to every observable). -/
def exItem (c n : String) (v : ℚ) (cur : String) : AssetItem :=
  { id := 0, category := c, name := n, value := v, currency := cur, tags := [] }

/-- A snapshot literal with no note and a zero stored total. -/
def exSnap (d m : String) (its : List AssetItem) : Snapshot :=
  { id := 0, date := d, familyMember := m, items := its, note := none, totalValue := 0 }

/-- A staged bulk-import row literal. -/
def exRow (d c n : String) (v : ℚ) (m cur : String) : BulkImportItem :=
  { id := 0, date := d, category := c, name := n, value := v, familyMember := m,
    currency := cur }

/-- An income record literal. -/
def exInc (d c n : String) (v : ℚ) (m cur : String) : IncomeRecord :=
  { id := 0, date := d, category := c, name := n, value := v, familyMember := m,
    currency := cur }

/-- The unrestricted filter selection. -/
def fAll : Filter :=
  { filterCategory := "All", filterMember := "All", filterStartDate := "",
    filterEndDate := "" }

/-- An app state with empty data and the default single member. -/
def exState : AppState :=
  { categories := [], incomeCategories := [], familyMembers := ["Me"],
    snapshots := [], incomeRecords := [], fresh := 0 }

/-- `exState` with one prior income record. -/
def exStateInc : AppState :=
  { exState with incomeRecords := [exInc "d" "c" "n" 45 "Me" "USD"] }

/-- `exState` with one known category. -/
def exStateCats : AppState := { exState with categories := ["Bank"] }

/-! # Theorems -/

/-! ## Generic helper lemmas -/

theorem jsJoin_cons (sep h : String) (x : String) (l : List String) :
    jsJoin sep (h :: x :: l) = h ++ sep ++ jsJoin sep (x :: l) := rfl

theorem jsJoin_cons_prefix (sep h : String) (l : List String) :
    ∃ rest, jsJoin sep (h :: l) = h ++ rest := by
  cases l with
  | nil => exact ⟨"", (String.append_empty h).symm⟩
  | cons x xs =>
    exact ⟨sep ++ jsJoin sep (x :: xs), by rw [jsJoin_cons, String.append_assoc]⟩

theorem foldl_add_eq_sum {α : Type} (g : α → ℚ) (l : List α) (a : ℚ) :
    l.foldl (fun acc x => acc + g x) a = a + (l.map g).sum := by
  induction l generalizing a with
  | nil => simp
  | cons x xs ih => simp [ih, add_assoc]

/-! ## C6 — snapshot totalValue invariant -/

/-- C6: the Snapshot totalValue invariant fails at the form-save path: with
form rows `[{name:"", value:5}, {name:"X", value:10}]`, `handleSubmit` stores
`totalValue = 15` (summed over all rows) but saves only the item of value 10
after removing the blank-name row, so `totalValue` is not the raw sum of the
saved `items[].value`. -/
theorem c6_totalValue_form_divergence :
    (snapshotFormSubmit 7 "2024-01-01" "Me" ""
        [exItem "Bank" "" 5 "USD", exItem "Bank" "X" 10 "USD"]).totalValue = 15 ∧
    (((snapshotFormSubmit 7 "2024-01-01" "Me" ""
        [exItem "Bank" "" 5 "USD", exItem "Bank" "X" 10 "USD"]).items.map
          (fun i => i.value)).sum) = 10 ∧
    (snapshotFormSubmit 7 "2024-01-01" "Me" ""
        [exItem "Bank" "" 5 "USD", exItem "Bank" "X" 10 "USD"]).totalValue ≠
      (((snapshotFormSubmit 7 "2024-01-01" "Me" ""
        [exItem "Bank" "" 5 "USD", exItem "Bank" "X" 10 "USD"]).items.map
          (fun i => i.value)).sum) := by
  have h1 : (jsTrim "" != "") = false := by decide
  have h2 : (jsTrim "X" != "") = true := by decide
  refine ⟨?_, ?_, ?_⟩ <;> simp [snapshotFormSubmit, exItem, h1, h2] <;> norm_num

/-! ## C8 — CSV export format -/

/-- C8: both CSV exports begin with the header row
`Date,Category,Name,Value,Family Member,Currency`, contain exactly one row per
AssetItem (flattened across all snapshots) resp. per IncomeRecord, every
snapshot item's sanitized row is among the emitted rows, and the sanitizer
used on the free-text name/category/member fields replaces exactly the commas
by spaces (so the sanitized fields are comma-free). -/
theorem c8_csv_export_format (snapshots : List Snapshot) (records : List IncomeRecord) :
    (∃ restA, assetCsv snapshots =
        "Date,Category,Name,Value,Family Member,Currency" ++ restA) ∧
    (∃ restI, incomeCsv records =
        "Date,Category,Name,Value,Family Member,Currency" ++ restI) ∧
    (assetCsvRows snapshots).length = (snapshots.map (fun s => s.items.length)).sum ∧
    (incomeCsvRows records).length = records.length ∧
    (∀ s ∈ snapshots, ∀ i ∈ s.items, assetCsvRow s i ∈ assetCsvRows snapshots) ∧
    (∀ r ∈ records, incomeCsvRow r ∈ incomeCsvRows records) ∧
    (∀ fieldStr : String,
      (∀ c ∈ (sanitizeField fieldStr).data, c ≠ ',') ∧
      ∀ n : Nat, (sanitizeField fieldStr).data[n]? =
        (fieldStr.data[n]?).map (fun c => if c = ',' then ' ' else c)) := by
  refine ⟨?_, ?_, ?_, ?_, ?_, ?_, ?_⟩
  · have h := jsJoin_cons_prefix "\n" csvHeader (assetCsvRows snapshots)
    simpa [assetCsv] using h
  · have h := jsJoin_cons_prefix "\n" csvHeader (incomeCsvRows records)
    simpa [incomeCsv] using h
  · simp only [assetCsvRows, List.length_flatMap]
    simp [Function.comp_def]
  · simp [incomeCsvRows]
  · intro s hs i hi
    simp only [assetCsvRows, List.mem_flatMap]
    exact ⟨s, hs, List.mem_map_of_mem _ hi⟩
  · intro r hr
    exact List.mem_map_of_mem _ hr
  · intro fieldStr
    constructor
    · intro c hc
      simp only [sanitizeField, List.mem_map] at hc
      obtain ⟨c0, -, hc0⟩ := hc
      by_cases h0 : c0 = ','
      · simp [h0] at hc0
        simp [← hc0]
      · simp [h0] at hc0
        simp [← hc0, h0]
    · intro n
      simp [sanitizeField, List.getElem?_map]

/-! ## C5 — bulk row parser robustness -/

/-- C5: for every input line with at least 3 columns, (a) if the value column
(defaulted to `"0"` when blank/missing), stripped to digits, `.`, `-`, does not
parse as a number, the row is silently dropped; (b) if the date column fails to
parse as a calendar date but the value parses, the row is kept with the current
date substituted (and carries the parsed value). -/
theorem c5_parser_robustness (jsDate : String → Option String) (today : String)
    (cats mems : List String) (idv : Nat) (row : String)
    (hcols : 3 ≤ (splitRow row).length) :
    (parseFloatStripped (stripValueChars (jsOrS (((splitRow row)[3]?).getD "") "0")) =
        none →
       parseRowSnapshot jsDate today cats mems idv row = none) ∧
    (jsDate (((splitRow row)[0]?).getD "") = none →
       ∀ v, parseFloatStripped
           (stripValueChars (jsOrS (((splitRow row)[3]?).getD "") "0")) = some v →
         ∃ it, parseRowSnapshot jsDate today cats mems idv row = some it ∧
               it.date = today ∧ it.value = v) := by
  constructor
  · intro h
    simp [parseRowSnapshot, hcols, h]
  · intro hd v hv
    simp [parseRowSnapshot, hcols, hd, hv]

/-- Witness for C5, at the two rows the specification names: the row
`"not-a-date,Bank,,abc"` (unparseable value) is dropped, and the row
`"not-a-date,Bank,X,100"` (unparseable date, valid value) is kept with the
current date substituted. `jsDate` is instantiated with a host recognizer that
rejects both date fields, and today's date with `"2026-10-11"`. -/
theorem c5_parser_robustness_witness :
    (3 ≤ (splitRow "not-a-date,Bank,,abc").length ∧
      parseRowSnapshot (fun _ => none) "2026-10-11" [] [] 0 "not-a-date,Bank,,abc" =
        none) ∧
    (3 ≤ (splitRow "not-a-date,Bank,X,100").length ∧
      ∃ it, parseRowSnapshot (fun _ => none) "2026-10-11" [] [] 0 "not-a-date,Bank,X,100" =
          some it ∧ it.date = "2026-10-11" ∧ it.value = 100) :=
  ⟨⟨by decide,
    (c5_parser_robustness (fun _ => none) "2026-10-11" [] [] 0 "not-a-date,Bank,,abc"
        (by decide)).1 (by decide)⟩,
   ⟨by decide,
    (c5_parser_robustness (fun _ => none) "2026-10-11" [] [] 0 "not-a-date,Bank,X,100"
        (by decide)).2 rfl 100
      (by simp +decide [parseFloatStripped, stripValueChars, splitRow, jsSplit, splitZ,
            stripPref, jsTrim, jsHasChar, jsOrS, digitsVal])⟩⟩

/-- Witness for C8 at a one-snapshot, one-record collection: the sanitized row
of the item is among the emitted rows, and both exports start with the header
row. -/
theorem c8_csv_export_format_witness :
    assetCsvRow (exSnap "2024-01-01" "Me" [exItem "Bank" "a,b" 5 "USD"])
        (exItem "Bank" "a,b" 5 "USD") ∈
      assetCsvRows [exSnap "2024-01-01" "Me" [exItem "Bank" "a,b" 5 "USD"]] ∧
    incomeCsvRow (exInc "d" "c" "n" 45 "Me" "USD") ∈
      incomeCsvRows [exInc "d" "c" "n" 45 "Me" "USD"] :=
  ⟨(c8_csv_export_format [exSnap "2024-01-01" "Me" [exItem "Bank" "a,b" 5 "USD"]]
        [exInc "d" "c" "n" 45 "Me" "USD"]).2.2.2.2.1
      _ (List.mem_singleton.mpr rfl) _ (by simp [exSnap]),
   (c8_csv_export_format [exSnap "2024-01-01" "Me" [exItem "Bank" "a,b" 5 "USD"]]
        [exInc "d" "c" "n" 45 "Me" "USD"]).2.2.2.2.2.1
      _ (List.mem_singleton.mpr rfl)⟩

/-! ## Registry fold lemmas -/

theorem reg_flag_mono (vals : List String) :
    ∀ l : List String, (vals.foldl regStep (l, true)).2 = true := by
  induction vals with
  | nil => intro l; rfl
  | cons v vs ih =>
    intro l
    by_cases h : v ≠ "" ∧ v ∉ l
    · simpa [regStep, h] using ih (l ++ [v])
    · simpa [regStep, h] using ih l

theorem reg_mem_mono (vals : List String) :
    ∀ (acc : List String × Bool) (x : String), x ∈ acc.1 →
      x ∈ (vals.foldl regStep acc).1 := by
  induction vals with
  | nil => intro acc x hx; exact hx
  | cons v vs ih =>
    intro acc x hx
    by_cases h : v ≠ "" ∧ v ∉ acc.1
    · exact ih _ x (by simp [regStep, h, List.mem_append, hx])
    · exact ih _ x (by simpa [regStep, h] using hx)

theorem reg_mem_val (vals : List String) :
    ∀ (acc : List String × Bool) (v : String), v ∈ vals → v ≠ "" →
      v ∈ (vals.foldl regStep acc).1 := by
  induction vals with
  | nil => intro _ _ h; exact absurd h (List.not_mem_nil _)
  | cons u vs ih =>
    intro acc v hv hne
    rcases List.mem_cons.mp hv with rfl | hv'
    · by_cases h : v ≠ "" ∧ v ∉ acc.1
      · exact reg_mem_mono vs _ v (by simp [regStep, h])
      · have hin : v ∈ acc.1 := by
          rcases not_and_or.mp h with h1 | h2
          · exact absurd hne (by simpa using h1)
          · simpa using h2
        refine reg_mem_mono vs _ v ?_
        by_cases hc : v ≠ "" ∧ v ∉ acc.1
        · simp [regStep, hc]
        · simpa [regStep, hc] using hin
    · exact ih _ v hv' hne

theorem reg_unchanged (vals : List String) :
    ∀ (acc : List String × Bool), (vals.foldl regStep acc).2 = false →
      ∀ v ∈ vals, v ≠ "" → v ∈ acc.1 := by
  induction vals with
  | nil => intro _ _ v hv; exact absurd hv (List.not_mem_nil _)
  | cons u vs ih =>
    intro acc hflag v hv hne
    by_cases h : u ≠ "" ∧ u ∉ acc.1
    · exfalso
      have : (vs.foldl regStep (acc.1 ++ [u], true)).2 = true := reg_flag_mono vs _
      rw [show (u :: vs).foldl regStep acc = vs.foldl regStep (acc.1 ++ [u], true) from by
        simp [regStep, h]] at hflag
      rw [hflag] at this
      exact Bool.false_ne_true this
    · have hstep : regStep acc u = acc := by simp [regStep, h]
      rcases List.mem_cons.mp hv with rfl | hv'
      · rcases not_and_or.mp h with h1 | h2
        · exact absurd hne (by simpa using h1)
        · simpa using h2
      · exact ih acc (by simpa [hstep] using hflag) v hv' hne

theorem dedup_fold_mem (l : List String) :
    ∀ (acc : List String) (x : String), x ∈ l.foldl dedupStep acc ↔ x ∈ acc ∨ x ∈ l := by
  induction l with
  | nil => intro acc x; simp
  | cons d ds ih =>
    intro acc x
    have hstep : ∀ y, y ∈ dedupStep acc d ↔ y ∈ acc ∨ y = d := by
      intro y
      by_cases hd : d ∈ acc
      · simp only [dedupStep, if_pos hd]
        constructor
        · exact fun h => Or.inl h
        · rintro (h | rfl)
          · exact h
          · exact hd
      · simp [dedupStep, if_neg hd]
    rw [List.foldl_cons, ih (dedupStep acc d) x, hstep x]
    simp [List.mem_cons]
    tauto

theorem dedupKeep_mem (l : List String) (x : String) : x ∈ dedupKeep l ↔ x ∈ l := by
  simpa [dedupKeep] using dedup_fold_mem l [] x

theorem registerValues_superset (known vals : List String) :
    ∀ x ∈ known, x ∈ (registerValues known vals).1 := by
  intro x hx
  exact reg_mem_mono vals _ x (by simpa [dedupKeep_mem] using hx)

theorem registerValues_val (known vals : List String) (v : String) (hv : v ∈ vals)
    (hne : v ≠ "") : v ∈ (registerValues known vals).1 :=
  reg_mem_val vals _ v hv hne

theorem registerValues_unchanged_mem (known vals : List String)
    (h : (registerValues known vals).2 = false) :
    ∀ v ∈ vals, v ≠ "" → v ∈ known := by
  intro v hv hne
  have := reg_unchanged vals _ h v hv hne
  simpa [dedupKeep_mem] using this

theorem registryAfter_superset (known vals : List String) :
    ∀ x ∈ known,
      x ∈ (if (registerValues known vals).2 then (registerValues known vals).1
           else known) := by
  intro x hx
  split
  · exact registerValues_superset known vals x hx
  · exact hx

theorem registryAfter_val (known vals : List String) (v : String) (hv : v ∈ vals)
    (hne : v ≠ "") :
    v ∈ (if (registerValues known vals).2 then (registerValues known vals).1
         else known) := by
  rcases hb : (registerValues known vals).2 with _ | _
  · simpa [hb] using registerValues_unchanged_mem known vals hb v hv hne
  · simpa [hb] using registerValues_val known vals v hv hne

/-! ## C9 — income import signature dedup -/

/-- C9: importing staged income records silently skips any record whose
(date, category, name, value) signature already occurs among the existing
records — familyMember and currency are not part of the signature, so a record
that differs only in those fields is also dropped (it does not appear among
the appended records) — while its non-blank trimmed category is still
registered. -/
theorem c9_income_import_signature_dedup (st : AppState) (items : List IncomeRecord) :
    (∀ r ∈ items,
        (∃ p ∈ st.incomeRecords, p.date = r.date ∧ p.category = r.category ∧
            p.name = r.name ∧ p.value = r.value) →
        r ∉ (handleImportIncome st items).incomeRecords.drop st.incomeRecords.length) ∧
    (∀ r ∈ items, jsTrim r.category ≠ "" →
        jsTrim r.category ∈ (handleImportIncome st items).incomeCategories) := by
  constructor
  · rintro r hr ⟨p, hp, h1, h2, h3, h4⟩
    have hsig : incomeSig p = incomeSig r := by simp [incomeSig, h1, h2, h3, h4]
    have hdrop : (handleImportIncome st items).incomeRecords.drop
        st.incomeRecords.length =
        items.filter (fun x => !((st.incomeRecords.map incomeSig).contains (incomeSig x))) := by
      simp [handleImportIncome]
    rw [hdrop]
    intro hmem
    have hkeep := (List.mem_filter.mp hmem).2
    have hc : (st.incomeRecords.map incomeSig).contains (incomeSig r) = true := by
      have : incomeSig r ∈ st.incomeRecords.map incomeSig :=
        hsig ▸ List.mem_map_of_mem incomeSig hp
      exact List.elem_eq_true_of_mem this
    rw [hc] at hkeep
    simp at hkeep
  · intro r hr hne
    have hcat : (handleImportIncome st items).incomeCategories =
        (if (registerValues st.incomeCategories (items.map (fun i => jsTrim i.category))).2
         then (registerValues st.incomeCategories (items.map (fun i => jsTrim i.category))).1
         else st.incomeCategories) := by
      simp [handleImportIncome]
    rw [hcat]
    exact registryAfter_val _ _ _ (List.mem_map_of_mem _ hr) hne

/-- Witness for C9: a staged record equal to a prior one except in family
member and currency is not among the appended records, and its category is
registered. -/
theorem c9_income_import_signature_dedup_witness :
    (exInc "d" "c" "n" 45 "Mom" "EUR") ∉
      (handleImportIncome exStateInc
        [exInc "d" "c" "n" 45 "Mom" "EUR"]).incomeRecords.drop
        exStateInc.incomeRecords.length ∧
    jsTrim (exInc "d" "c" "n" 45 "Mom" "EUR").category ∈
      (handleImportIncome exStateInc
        [exInc "d" "c" "n" 45 "Mom" "EUR"]).incomeCategories :=
  ⟨(c9_income_import_signature_dedup exStateInc [exInc "d" "c" "n" 45 "Mom" "EUR"]).1
      _ (List.mem_singleton.mpr rfl)
      ⟨exInc "d" "c" "n" 45 "Me" "USD", by simp [exStateInc, exState], rfl, rfl, rfl, rfl⟩,
   (c9_income_import_signature_dedup exStateInc [exInc "d" "c" "n" 45 "Mom" "EUR"]).2
      _ (List.mem_singleton.mpr rfl) (by decide)⟩

/-! ## C7 — registry monotonic growth -/

/-- C7 counterexample: the staged category value `" X "` (with surrounding
spaces) is absent before the import and still absent after it — only its
trimmed form `"X"` is registered — so the claim that every staged category
value absent before is present afterwards fails. -/
theorem c7_registry_growth_counterexample :
    " X " ∉ (handleBulkImport exState
        [exRow "2024-01-01" " X " "n" 5 "Me" "USD"]).categories ∧
    "X" ∈ (handleBulkImport exState
        [exRow "2024-01-01" " X " "n" 5 "Me" "USD"]).categories := by
  constructor <;>
    simp +decide [handleBulkImport, registerValues, regStep, dedupKeep, dedupStep,
      groupByKey, groupPush, rowKey, mergeGroup, replaceFirst, groupAssets, jsSplit,
      splitZ, stripPref, jsTrim, exState, exRow]

/-- C7 (amended): after any bulk import, the category and family-member
registries are supersets of their prior contents, and every non-blank TRIMMED
category / family-member value appearing in the staged rows is present
afterwards (values are trimmed before registration; a value that is blank
after trimming is skipped). -/
theorem c7_registry_growth_amended (st : AppState) (rows : List BulkImportItem) :
    (∀ c ∈ st.categories, c ∈ (handleBulkImport st rows).categories) ∧
    (∀ m ∈ st.familyMembers, m ∈ (handleBulkImport st rows).familyMembers) ∧
    (∀ r ∈ rows, jsTrim r.category ≠ "" →
        jsTrim r.category ∈ (handleBulkImport st rows).categories) ∧
    (∀ r ∈ rows, jsTrim r.familyMember ≠ "" →
        jsTrim r.familyMember ∈ (handleBulkImport st rows).familyMembers) := by
  have hcats : (handleBulkImport st rows).categories =
      (if (registerValues st.categories (rows.map (fun i => jsTrim i.category))).2
       then (registerValues st.categories (rows.map (fun i => jsTrim i.category))).1
       else st.categories) := by
    simp [handleBulkImport]
  have hmems : (handleBulkImport st rows).familyMembers =
      (if (registerValues st.familyMembers (rows.map (fun i => jsTrim i.familyMember))).2
       then (registerValues st.familyMembers (rows.map (fun i => jsTrim i.familyMember))).1
       else st.familyMembers) := by
    simp [handleBulkImport]
  refine ⟨?_, ?_, ?_, ?_⟩
  · intro c hc
    rw [hcats]
    exact registryAfter_superset _ _ c hc
  · intro m hm
    rw [hmems]
    exact registryAfter_superset _ _ m hm
  · intro r hr hne
    rw [hcats]
    exact registryAfter_val _ _ _ (List.mem_map_of_mem _ hr) hne
  · intro r hr hne
    rw [hmems]
    exact registryAfter_val _ _ _ (List.mem_map_of_mem _ hr) hne

/-- Witness for C7 (amended): with `["Bank"]` known and one staged row of
category `" X "`, the prior category survives and the trimmed staged category
is present. -/
theorem c7_registry_growth_amended_witness :
    "Bank" ∈ (handleBulkImport exStateCats
        [exRow "2024-01-01" " X " "n" 5 "Me" "USD"]).categories ∧
    jsTrim (exRow "2024-01-01" " X " "n" 5 "Me" "USD").category ∈
      (handleBulkImport exStateCats
        [exRow "2024-01-01" " X " "n" 5 "Me" "USD"]).categories :=
  ⟨(c7_registry_growth_amended exStateCats
      [exRow "2024-01-01" " X " "n" 5 "Me" "USD"]).1 "Bank" (by simp [exStateCats, exState]),
   (c7_registry_growth_amended exStateCats
      [exRow "2024-01-01" " X " "n" 5 "Me" "USD"]).2.2.1
      _ (List.mem_singleton.mpr rfl) (by decide)⟩

/-! ## Dictionary accumulation lemmas (`bump`) -/

theorem ite_zero_add (x v : ℚ) : (if x = 0 then 0 else x) + v = x + v := by
  by_cases h : x = 0 <;> simp [h]

theorem alookup_bump_self (l : List (String × ℚ)) (k : String) (v : ℚ) :
    alookup k (bump k v l) = some (((alookup k l).getD 0) + v) := by
  induction l with
  | nil => simp [bump, alookup]
  | cons p rest ih =>
    obtain ⟨k', x⟩ := p
    by_cases h : k' = k
    · subst h
      simp [bump, alookup, ite_zero_add]
    · simp [bump, alookup, h, ih]

theorem alookup_bump_ne (l : List (String × ℚ)) (k : String) (v : ℚ) (k' : String)
    (hne : k' ≠ k) : alookup k' (bump k v l) = alookup k' l := by
  have hkk : ¬ k = k' := fun h => hne h.symm
  induction l with
  | nil => simp [bump, alookup, hkk]
  | cons p rest ih =>
    obtain ⟨k'', x⟩ := p
    by_cases h : k'' = k
    · subst h
      simp [bump, alookup, hkk]
    · by_cases h2 : k'' = k'
      · simp [bump, alookup, h, h2, hne]
      · simp [bump, alookup, h, h2, ih]

theorem foldl_bump_lookup {α : Type} (c : α → Bool) (g : α → String) (w : α → ℚ) :
    ∀ (items : List α) (m0 : List (String × ℚ)) (k : String),
    alookup k (items.foldl (fun m i => if c i then bump (g i) (w i) m else m) m0) =
      (if ((items.filter (fun i => c i && (g i == k))).map w) = [] then alookup k m0
       else some (((alookup k m0).getD 0) +
         ((items.filter (fun i => c i && (g i == k))).map w).sum)) := by
  intro items
  induction items with
  | nil => intro m0 k; simp
  | cons i is ih =>
    intro m0 k
    by_cases hc : c i = true
    · by_cases hg : g i = k
      · subst hg
        have hfil : (i :: is).filter (fun j => c j && (g j == g i)) =
            i :: is.filter (fun j => c j && (g j == g i)) := by
          simp [List.filter_cons, hc]
        rw [List.foldl_cons, if_pos hc, ih (bump (g i) (w i) m0) (g i), hfil,
          alookup_bump_self]
        by_cases hS : (is.filter (fun j => c j && (g j == g i))).map w = []
        · simp [hS]
        · simp only [hS, if_neg, List.map_cons, List.sum_cons]
          simp [add_assoc]
      · have hfil : (i :: is).filter (fun j => c j && (g j == k)) =
            is.filter (fun j => c j && (g j == k)) := by
          simp [List.filter_cons, hc, hg]
        rw [List.foldl_cons, if_pos hc, ih (bump (g i) (w i) m0) k, hfil,
          alookup_bump_ne _ _ _ _ (fun h => hg h.symm)]
    · have hc' : c i = false := by simpa using hc
      have hfil : (i :: is).filter (fun j => c j && (g j == k)) =
          is.filter (fun j => c j && (g j == k)) := by
        simp [List.filter_cons, hc']
      rw [List.foldl_cons, if_neg (by simp [hc']), ih m0 k, hfil]

theorem foldl_bump_lookup_total {α : Type} (g : α → String) (w : α → ℚ)
    (items : List α) (m0 : List (String × ℚ)) (k : String) :
    alookup k (items.foldl (fun m i => bump (g i) (w i) m) m0) =
      (if ((items.filter (fun i => (g i == k))).map w) = [] then alookup k m0
       else some (((alookup k m0).getD 0) +
         ((items.filter (fun i => (g i == k))).map w).sum)) := by
  have h0 : items.foldl (fun m i => bump (g i) (w i) m) m0 =
      items.foldl (fun m i => if (fun _ : α => true) i then bump (g i) (w i) m else m)
        m0 := rfl
  rw [h0, foldl_bump_lookup (fun _ => true) g w]
  simp

/-! ## C4 — pivot table cells -/

/-- C4 counterexample: an income record of 100 EUR yields a pivot cell holding
the raw value 100, while the currency-normalized sum of the matching records
is 105 — the income branch of the pivot builder does not normalize, so the
claim that every cell equals the currency-normalized sum fails on income
collections. -/
theorem c4_pivot_income_normalization_counterexample :
    alookup "n (Dividend)"
        (incomeRow fAll [exInc "2024-01-01" "Dividend" "n" 100 "Me" "EUR"]
          "2024-01-01").values = some 100 ∧
    ((dayRecords fAll [exInc "2024-01-01" "Dividend" "n" 100 "Me" "EUR"]
        "2024-01-01").map (fun r => r.value * rateFor r.currency)).sum = 105 ∧
    (100 : ℚ) ≠ 105 := by
  refine ⟨?_, ?_, by norm_num⟩
  · simp +decide [incomeRow, dayRecords, mdbIncomePasses, bump, colKey, jsTrim,
      alookup, fAll, exInc]
  · simp +decide [dayRecords, mdbIncomePasses, rateFor, jsToUpper, upChar, RATES,
      alookup, fAll, exInc]
    norm_num

/-- C4 (amended): every asset pivot cell equals the currency-NORMALIZED sum of
the items matching its (date, column-key) pair, every income pivot cell equals
the RAW (un-normalized) sum of the records matching its pair, and a cell with
no contributing items/records is the explicit absent-key sentinel (`none`),
distinct from every number and in particular from zero. -/
theorem c4_pivot_cells_amended (f : Filter) (snapshots : List Snapshot)
    (records : List IncomeRecord) (d col : String) :
    alookup col (assetRow f snapshots d).values =
      (if specAssetCellContribs f snapshots d col = [] then none
       else some (specAssetCellContribs f snapshots d col).sum) ∧
    alookup col (incomeRow f records d).values =
      (if specIncomeCellContribs f records d col = [] then none
       else some (specIncomeCellContribs f records d col).sum) ∧
    (∀ q : ℚ, (none : Option ℚ) ≠ some q) := by
  refine ⟨?_, ?_, fun q h => Option.noConfusion h⟩
  · have hrw : (assetRow f snapshots d).values =
        (dayItems f snapshots d).foldl
          (fun m i => if itemPasses f i then
              bump (colKey i.name i.category) (normValue i) m
            else m) [] := rfl
    rw [hrw, foldl_bump_lookup (itemPasses f) (fun i => colKey i.name i.category)
      normValue]
    simp [specAssetCellContribs, alookup]
  · have hrw : (incomeRow f records d).values =
        (dayRecords f records d).foldl
          (fun m r => bump (colKey r.name r.category) r.value m) [] := rfl
    rw [hrw, foldl_bump_lookup_total (α := IncomeRecord)
      (fun r => colKey r.name r.category) (fun r => r.value) (dayRecords f records d)
      [] col]
    simp [specIncomeCellContribs, alookup]

/-- Witness for C4 (amended) at a one-item snapshot: the `"X (Bank)"` cell of
date 2024-01-01 matches the contribution list, which evaluates to the single
normalized value 5. -/
theorem c4_pivot_cells_amended_witness :
    (alookup "X (Bank)" (assetRow fAll
        [exSnap "2024-01-01" "Me" [exItem "Bank" "X" 5 "USD"]] "2024-01-01").values =
      (if specAssetCellContribs fAll [exSnap "2024-01-01" "Me" [exItem "Bank" "X" 5 "USD"]]
          "2024-01-01" "X (Bank)" = [] then none
       else some (specAssetCellContribs fAll
          [exSnap "2024-01-01" "Me" [exItem "Bank" "X" 5 "USD"]]
          "2024-01-01" "X (Bank)").sum)) ∧
    (if specAssetCellContribs fAll [exSnap "2024-01-01" "Me" [exItem "Bank" "X" 5 "USD"]]
        "2024-01-01" "X (Bank)" = [] then (none : Option ℚ)
     else some (specAssetCellContribs fAll
        [exSnap "2024-01-01" "Me" [exItem "Bank" "X" 5 "USD"]]
        "2024-01-01" "X (Bank)").sum) = some 5 :=
  ⟨(c4_pivot_cells_amended fAll [exSnap "2024-01-01" "Me" [exItem "Bank" "X" 5 "USD"]]
      [] "2024-01-01" "X (Bank)").1,
   by
    simp +decide [specAssetCellContribs, dayItems, mdbSnapshotPasses, passesMemberDate,
      itemPasses, colKey, jsTrim, normValue, rateFor, jsToUpper, upChar, RATES, alookup,
      fAll, exSnap, exItem]⟩

/-! ## Lexicographic order and sort lemmas -/

theorem lexLt_irrefl : ∀ l : List Char, lexLt l l = false := by
  intro l
  induction l with
  | nil => rfl
  | cons a as ih => simp [lexLt, ih]

theorem lexLt_asymm : ∀ a b : List Char, lexLt a b = true → lexLt b a = false := by
  intro a
  induction a with
  | nil =>
    intro b h
    cases b with
    | nil => simpa [lexLt] using h
    | cons y ys => rfl
  | cons x xs ih =>
    intro b h
    cases b with
    | nil => simpa [lexLt] using h
    | cons y ys =>
      by_cases hxy : x < y
      · simp [lexLt, hxy, asymm hxy, fun h' => asymm hxy h']
      · by_cases hyx : y < x
        · simp [lexLt, hxy, hyx] at h
        · simp only [lexLt, if_neg hxy, if_neg hyx] at h
          simp [lexLt, hxy, hyx, ih ys h]

theorem lexLt_trans : ∀ a b c : List Char, lexLt a b = true → lexLt b c = true →
    lexLt a c = true := by
  intro a
  induction a with
  | nil =>
    intro b c hab hbc
    cases c with
    | nil =>
      cases b with
      | nil => simpa [lexLt] using hab
      | cons y ys => simpa [lexLt] using hbc
    | cons z zs => rfl
  | cons x xs ih =>
    intro b c hab hbc
    cases b with
    | nil => simp [lexLt] at hab
    | cons y ys =>
      cases c with
      | nil => simp [lexLt] at hbc
      | cons z zs =>
        by_cases hxy : x < y
        · by_cases hyz : y < z
          · simp [lexLt, lt_trans hxy hyz]
          · by_cases hzy : z < y
            · simp only [lexLt, if_neg hyz, if_pos hzy] at hbc
              exact Bool.noConfusion hbc
            · have : y = z := le_antisymm (not_lt.mp hzy) (not_lt.mp hyz)
              simp [lexLt, this ▸ hxy]
        · by_cases hyx : y < x
          · simp [lexLt, hxy, hyx] at hab
          · have hxey : x = y := le_antisymm (not_lt.mp hyx) (not_lt.mp hxy)
            subst hxey
            simp only [lexLt, if_neg hxy, if_neg hyx] at hab
            by_cases hyz : x < z
            · simp [lexLt, hyz]
            · by_cases hzy : z < x
              · simp only [lexLt, if_neg hyz, if_pos hzy] at hbc
                exact Bool.noConfusion hbc
              · simp only [lexLt, if_neg hyz, if_neg hzy] at hbc ⊢
                exact ih ys zs hab hbc

theorem lexLt_eq_of_not : ∀ a b : List Char, lexLt a b = false → lexLt b a = false →
    a = b := by
  intro a
  induction a with
  | nil =>
    intro b hab _
    cases b with
    | nil => rfl
    | cons y ys => simp [lexLt] at hab
  | cons x xs ih =>
    intro b hab hba
    cases b with
    | nil => simp [lexLt] at hba
    | cons y ys =>
      by_cases hxy : x < y
      · simp [lexLt, hxy] at hab
      · by_cases hyx : y < x
        · simp [lexLt, hyx, hxy] at hba
        · have hxey : x = y := le_antisymm (not_lt.mp hyx) (not_lt.mp hxy)
          subst hxey
          simp only [lexLt, if_neg hxy] at hab hba
          rw [ih ys hab hba]

theorem jsLeB_refl (a : String) : jsLeB a a = true := by
  simp [jsLeB, jsLtB, lexLt_irrefl]

theorem jsLeB_total (a b : String) : jsLeB a b = true ∨ jsLeB b a = true := by
  by_cases h : lexLt b.data a.data = true
  · right
    simp [jsLeB, jsLtB, lexLt_asymm _ _ h]
  · left
    simp [jsLeB, jsLtB]
    simpa using h

theorem jsLeB_trans (a b c : String) (hab : jsLeB a b = true) (hbc : jsLeB b c = true) :
    jsLeB a c = true := by
  simp only [jsLeB, jsLtB, Bool.not_eq_true'] at hab hbc ⊢
  by_cases hca : lexLt c.data a.data = true
  · exfalso
    by_cases hcb : lexLt a.data b.data = true
    · have h3 := lexLt_trans _ _ _ hca hcb
      rw [h3] at hbc
      exact Bool.noConfusion hbc
    · have h2' : lexLt a.data b.data = false := by simpa using hcb
      have h4 : a.data = b.data := lexLt_eq_of_not _ _ h2' hab
      rw [← h4] at hbc
      rw [hca] at hbc
      exact Bool.noConfusion hbc
  · simpa using hca

theorem insertLe_perm {α : Type} (le : α → α → Bool) (x : α) :
    ∀ l : List α, List.Perm (insertLe le x l) (x :: l) := by
  intro l
  induction l with
  | nil => simp [insertLe]
  | cons y ys ih =>
    by_cases h : le x y = true
    · simp [insertLe, h]
    · simp only [insertLe, h]
      rw [if_neg (by simp [h])]
      exact ((ih.cons y).trans (List.Perm.swap x y ys))

theorem jsSortBy_perm {α : Type} (le : α → α → Bool) :
    ∀ l : List α, List.Perm (jsSortBy le l) l := by
  intro l
  induction l with
  | nil => simp [jsSortBy]
  | cons x xs ih =>
    have : jsSortBy le (x :: xs) = insertLe le x (jsSortBy le xs) := rfl
    rw [this]
    exact (insertLe_perm le x (jsSortBy le xs)).trans (ih.cons x)

theorem insertLe_pairwise {α : Type} (le : α → α → Bool)
    (htrans : ∀ a b c, le a b = true → le b c = true → le a c = true)
    (htotal : ∀ a b, le a b = true ∨ le b a = true) (x : α) :
    ∀ l : List α, l.Pairwise (fun a b => le a b = true) →
      (insertLe le x l).Pairwise (fun a b => le a b = true) := by
  intro l
  induction l with
  | nil => intro _; simp [insertLe]
  | cons y ys ih =>
    intro hp
    rcases List.pairwise_cons.mp hp with ⟨hy, hys⟩
    by_cases h : le x y = true
    · simp only [insertLe]
      rw [if_pos h]
      refine List.pairwise_cons.mpr ⟨?_, hp⟩
      intro z hz
      rcases List.mem_cons.mp hz with rfl | hz'
      · exact h
      · exact htrans x y z h (hy z hz')
    · simp only [insertLe]
      rw [if_neg (by simp [h])]
      refine List.pairwise_cons.mpr ⟨?_, ih hys⟩
      intro z hz
      have hz' := (insertLe_perm le x ys).mem_iff.mp hz
      rcases List.mem_cons.mp hz' with rfl | hz''
      · rcases htotal z y with h' | h'
        · exact absurd h' h
        · exact h'
      · exact hy z hz''

theorem jsSortBy_pairwise {α : Type} (le : α → α → Bool)
    (htrans : ∀ a b c, le a b = true → le b c = true → le a c = true)
    (htotal : ∀ a b, le a b = true ∨ le b a = true) :
    ∀ l : List α, (jsSortBy le l).Pairwise (fun a b => le a b = true) := by
  intro l
  induction l with
  | nil => simp [jsSortBy]
  | cons x xs ih =>
    have h : jsSortBy le (x :: xs) = insertLe le x (jsSortBy le xs) := rfl
    rw [h]
    exact insertLe_pairwise le htrans htotal x _ ih

theorem pairwise_getLast?_max {α : Type} (R : α → α → Prop) (hrefl : ∀ a, R a a) :
    ∀ l : List α, l.Pairwise R → ∀ x ∈ l, ∃ y, l.getLast? = some y ∧ R x y := by
  intro l
  induction l with
  | nil => intro _ x hx; exact absurd hx (List.not_mem_nil x)
  | cons a rest ih =>
    intro hp x hx
    cases rest with
    | nil =>
      rcases List.mem_singleton.mp hx with rfl
      exact ⟨x, rfl, hrefl x⟩
    | cons b bs =>
      rcases List.pairwise_cons.mp hp with ⟨ha, hrest⟩
      rcases List.mem_cons.mp hx with rfl | hx'
      · obtain ⟨y, hy, -⟩ := ih hrest b (List.mem_cons_self b bs)
        refine ⟨y, by simpa [List.getLast?_cons_cons] using hy, ?_⟩
        refine ha y ?_
        obtain ⟨hne, heq⟩ := List.mem_getLast?_eq_getLast (Option.mem_def.mpr hy)
        exact heq ▸ List.getLast_mem hne
      · obtain ⟨y, hy, hR⟩ := ih hrest x hx'
        exact ⟨y, by simpa [List.getLast?_cons_cons] using hy, hR⟩

theorem sorted_strings_getLast_max (dates : List String) (x : String) (hx : x ∈ dates) :
    ∃ y, (jsSortBy jsLeB dates).getLast? = some y ∧ jsLeB x y = true := by
  have hperm := jsSortBy_perm jsLeB dates
  have hx' : x ∈ jsSortBy jsLeB dates := hperm.mem_iff.mpr hx
  exact pairwise_getLast?_max (fun a b => jsLeB a b = true)
    (fun a => jsLeB_refl a) _ (jsSortBy_pairwise jsLeB jsLeB_trans jsLeB_total dates)
    x hx'

/-! ## Sum-preservation lemmas for the breakdown partitions -/

theorem jsSortBy_map_sum {α : Type} (le : α → α → Bool) (g : α → ℚ) (l : List α) :
    ((jsSortBy le l).map g).sum = (l.map g).sum :=
  ((jsSortBy_perm le l).map g).sum_eq

theorem capTen_map_value_sum (l : List PieEntry) (orig : PieEntry → ℚ) :
    ((capTen l (fun e => e.value) orig).map (fun e => e.value)).sum =
      (l.map (fun e => e.value)).sum := by
  unfold capTen
  split
  · rw [List.map_append, List.sum_append]
    simp only [List.map_cons, List.map_nil, List.sum_cons, List.sum_nil]
    rw [List.map_take, List.map_drop]
    rw [add_zero, List.sum_take_add_sum_drop]
  · rfl

theorem capTen_map_orig_sum (l : List PieEntry) (val : PieEntry → ℚ) :
    ((capTen l val (fun e => e.originalValue)).map (fun e => e.originalValue)).sum =
      (l.map (fun e => e.originalValue)).sum := by
  unfold capTen
  split
  · rw [List.map_append, List.sum_append]
    simp only [List.map_cons, List.map_nil, List.sum_cons, List.sum_nil]
    rw [List.map_take, List.map_drop]
    rw [add_zero, List.sum_take_add_sum_drop]
  · rfl

/-! ## C3 — breakdown aggregator partition sums -/

/-- C3 counterexample: two same-name items `X (+100)` and `X (−30)` on the
latest date aggregate to a single entry of 70, so the assets partition sums to
70 while the positive-valued items passing the filter sum to 100 (and the
liabilities partition is empty while the negative items have magnitude 30):
the partition is over per-name aggregates, not items. -/
theorem c3_breakdown_counterexample :
    ((pieDataInfo fAll [exSnap "2024-01-01" "Me"
        [exItem "Bank" "X" 100 "USD", exItem "Bank" "X" (-30) "USD"]]).assets.map
      (fun e => e.value)).sum = 70 ∧
    specPosItemsSum fAll ([exSnap "2024-01-01" "Me"
        [exItem "Bank" "X" 100 "USD", exItem "Bank" "X" (-30) "USD"]].filter
      (passesMemberDate fAll)) "2024-01-01" = 100 ∧
    ((pieDataInfo fAll [exSnap "2024-01-01" "Me"
        [exItem "Bank" "X" 100 "USD", exItem "Bank" "X" (-30) "USD"]]).liabilities.map
      (fun e => e.value)).sum = 0 ∧
    specNegItemsSum fAll ([exSnap "2024-01-01" "Me"
        [exItem "Bank" "X" 100 "USD", exItem "Bank" "X" (-30) "USD"]].filter
      (passesMemberDate fAll)) "2024-01-01" = 30 ∧
    (70 : ℚ) ≠ 100 := by
  have hv : (100 : ℚ) + (-30) = 70 := by norm_num
  have d1 : (decide ((0 : ℚ) < 70)) = true := by norm_num
  have d2 : (decide ((70 : ℚ) < 0)) = false := by norm_num
  have d3 : (decide ((0 : ℚ) < 100)) = true := by norm_num
  have d4 : (decide ((0 : ℚ) < -30)) = false := by norm_num
  have d5 : (decide ((100 : ℚ) < 0)) = false := by norm_num
  have d6 : (decide ((-30 : ℚ) < 0)) = true := by norm_num
  refine ⟨?_, ?_, ?_, ?_, by norm_num⟩
  · simp +decide [pieDataInfo, latestMatchingDate, aggByName, bump, pieName, jsOrS,
      jsTrim, itemPasses, normValue, rateFor, jsToUpper, upChar, RATES, alookup,
      passesMemberDate, jsSortBy, insertLe, jsLeB, jsLtB, lexLt, capTen, fAll,
      exSnap, exItem, hv, d1, d2]
  · simp +decide [specPosItemsSum, passesMemberDate, itemPasses, normValue, rateFor,
      jsToUpper, upChar, RATES, alookup, fAll, exSnap, exItem, d3, d4]
  · simp +decide [pieDataInfo, latestMatchingDate, aggByName, bump, pieName, jsOrS,
      jsTrim, itemPasses, normValue, rateFor, jsToUpper, upChar, RATES, alookup,
      passesMemberDate, jsSortBy, insertLe, jsLeB, jsLtB, lexLt, capTen, fAll,
      exSnap, exItem, hv, d1, d2]
  · simp +decide [specNegItemsSum, passesMemberDate, itemPasses, normValue, rateFor,
      jsToUpper, upChar, RATES, alookup, fAll, exSnap, exItem, d5, d6]

/-- C3 (amended): the assets partition of the breakdown (including the
synthetic "Others" entry) sums to the sum of the positive PER-NAME AGGREGATES
of the latest matching date passing the filter — aggregation by trimmed item
name with category fallback — and the liabilities partition's slice values sum
to the magnitudes of the negative aggregates (its original values to their
signed sum). Each per-name aggregate is the normalized sum of its contributing
items, the reported date is the latest matching date, and every relevant
snapshot's date is at most that date. -/
theorem c3_breakdown_partition_sums_amended (f : Filter) (snapshots : List Snapshot) :
    (((pieDataInfo f snapshots).assets.map (fun e => e.value)).sum =
      specPosAggSum f (snapshots.filter (passesMemberDate f))
        (latestMatchingDate f snapshots)) ∧
    (((pieDataInfo f snapshots).liabilities.map (fun e => e.value)).sum =
      specNegAggSum f (snapshots.filter (passesMemberDate f))
        (latestMatchingDate f snapshots)) ∧
    (((pieDataInfo f snapshots).liabilities.map (fun e => e.originalValue)).sum =
      specNegAggOrigSum f (snapshots.filter (passesMemberDate f))
        (latestMatchingDate f snapshots)) ∧
    (∀ k : String,
      alookup k (aggByName f (snapshots.filter (passesMemberDate f))
          (latestMatchingDate f snapshots)) =
        (if specNameContribs f (snapshots.filter (passesMemberDate f))
            (latestMatchingDate f snapshots) k = [] then none
         else some (specNameContribs f (snapshots.filter (passesMemberDate f))
            (latestMatchingDate f snapshots) k).sum)) ∧
    ((snapshots.filter (passesMemberDate f)).all
      (fun s => jsLeB s.date (latestMatchingDate f snapshots)) = true) ∧
    ((pieDataInfo f snapshots).date =
      if (snapshots.filter (passesMemberDate f)).length = 0 then none
      else some (latestMatchingDate f snapshots)) := by
  have hagg : ∀ k : String,
      alookup k (aggByName f (snapshots.filter (passesMemberDate f))
          (latestMatchingDate f snapshots)) =
        (if specNameContribs f (snapshots.filter (passesMemberDate f))
            (latestMatchingDate f snapshots) k = [] then none
         else some (specNameContribs f (snapshots.filter (passesMemberDate f))
            (latestMatchingDate f snapshots) k).sum) := by
    intro k
    have hrw : aggByName f (snapshots.filter (passesMemberDate f))
        (latestMatchingDate f snapshots) =
        ((((snapshots.filter (passesMemberDate f)).filter
            (fun s => s.date = latestMatchingDate f snapshots)).flatMap
            (fun s => s.items)).filter (itemPasses f)).foldl
          (fun m i => bump (pieName i) (normValue i) m) [] := rfl
    rw [hrw, foldl_bump_lookup_total (α := AssetItem) pieName normValue _ [] k]
    simp [specNameContribs, alookup]
  have hmax : (snapshots.filter (passesMemberDate f)).all
      (fun s => jsLeB s.date (latestMatchingDate f snapshots)) = true := by
    rw [List.all_eq_true]
    intro s hs
    obtain ⟨y, hy, hle⟩ := sorted_strings_getLast_max
      ((snapshots.filter (passesMemberDate f)).map (fun s => s.date)) s.date
      (List.mem_map_of_mem _ hs)
    simp only [latestMatchingDate, hy, Option.getD_some]
    exact hle
  by_cases hrel : (snapshots.filter (passesMemberDate f)).length = 0
  · have hnil : snapshots.filter (passesMemberDate f) = [] :=
      List.length_eq_zero.mp hrel
    refine ⟨?_, ?_, ?_, hagg, hmax, ?_⟩ <;>
      simp [pieDataInfo, hrel, hnil, specPosAggSum, specNegAggSum, specNegAggOrigSum,
        aggByName]
  · have hassets : (pieDataInfo f snapshots).assets =
        capTen (jsSortBy (fun a b => decide (b.value ≤ a.value))
          (((aggByName f (snapshots.filter (passesMemberDate f))
              (latestMatchingDate f snapshots)).filter
              (fun p => decide (0 < p.2))).map
            (fun p => ({ name := p.1, value := p.2, originalValue := p.2 } : PieEntry))))
          (fun e => e.value) (fun e => e.value) := by
      simp [pieDataInfo, hrel]
    have hliab : (pieDataInfo f snapshots).liabilities =
        capTen (jsSortBy (fun a b => decide (b.value ≤ a.value))
          (((aggByName f (snapshots.filter (passesMemberDate f))
              (latestMatchingDate f snapshots)).filter
              (fun p => decide (p.2 < 0))).map
            (fun p => ({ name := p.1, value := abs p.2, originalValue := p.2 } : PieEntry))))
          (fun e => e.value) (fun e => e.originalValue) := by
      simp [pieDataInfo, hrel]
    refine ⟨?_, ?_, ?_, hagg, hmax, by simp [pieDataInfo, hrel]⟩
    · rw [hassets, capTen_map_value_sum, jsSortBy_map_sum]
      simp only [List.map_map]
      simp [specPosAggSum, Function.comp_def]
    · rw [hliab, capTen_map_value_sum, jsSortBy_map_sum]
      simp only [List.map_map]
      rw [specNegAggSum]
      congr 1
      refine List.map_congr_left ?_
      intro p hp
      have hneg : p.2 < 0 := by
        have := (List.mem_filter.mp hp).2
        simpa using this
      simp [abs_of_neg hneg]
    · rw [hliab, capTen_map_orig_sum, jsSortBy_map_sum]
      simp only [List.map_map]
      simp [specNegAggOrigSum, Function.comp_def]

/-! ## JS-object (`aset`/`amodify`) lemmas -/

theorem alookup_aset_self {β : Type} (l : List (String × β)) (k : String) (v : β) :
    alookup k (aset k v l) = some v := by
  induction l with
  | nil => simp [aset, alookup]
  | cons p rest ih =>
    obtain ⟨k', v'⟩ := p
    by_cases h : k' = k
    · simp [aset, alookup, h]
    · simp [aset, alookup, h, ih]

theorem alookup_aset_ne {β : Type} (l : List (String × β)) (k : String) (v : β)
    (k' : String) (hne : k' ≠ k) : alookup k' (aset k v l) = alookup k' l := by
  have hkk : ¬ k = k' := fun h => hne h.symm
  induction l with
  | nil => simp [aset, alookup, hkk]
  | cons p rest ih =>
    obtain ⟨k'', v'⟩ := p
    by_cases h : k'' = k
    · subst h
      simp [aset, alookup, hkk]
    · by_cases h2 : k'' = k'
      · simp [aset, alookup, h, h2, hne]
      · simp [aset, alookup, h, h2, ih]

theorem alookup_mem {β : Type} (l : List (String × β)) (k : String) (v : β)
    (h : alookup k l = some v) : (k, v) ∈ l := by
  induction l with
  | nil => simp [alookup] at h
  | cons p rest ih =>
    obtain ⟨k', v'⟩ := p
    by_cases hk : k' = k
    · subst hk
      simp only [alookup, if_pos rfl] at h
      cases h
      exact List.mem_cons_self _ _
    · simp only [alookup, if_neg hk] at h
      exact List.mem_cons_of_mem _ (ih h)

theorem alookup_eq_none_iff {β : Type} (l : List (String × β)) (k : String) :
    alookup k l = none ↔ k ∉ l.map Prod.fst := by
  induction l with
  | nil => simp [alookup]
  | cons p rest ih =>
    obtain ⟨k', v'⟩ := p
    by_cases h : k' = k
    · subst h
      simp [alookup]
    · have hk' : ¬ k = k' := fun hh => h hh.symm
      simp [alookup, h, ih, hk']

theorem aset_keys_present {β : Type} (l : List (String × β)) (k : String) (v : β)
    (h : (alookup k l).isSome) : (aset k v l).map Prod.fst = l.map Prod.fst := by
  induction l with
  | nil => simp [alookup] at h
  | cons p rest ih =>
    obtain ⟨k', v'⟩ := p
    by_cases hk : k' = k
    · subst hk
      simp [aset]
    · simp only [alookup, if_neg hk, Option.isSome] at h
      simp [aset, hk, ih h]

theorem aset_keys_absent {β : Type} (l : List (String × β)) (k : String) (v : β)
    (h : alookup k l = none) : (aset k v l).map Prod.fst = l.map Prod.fst ++ [k] := by
  induction l with
  | nil => simp [aset]
  | cons p rest ih =>
    obtain ⟨k', v'⟩ := p
    by_cases hk : k' = k
    · subst hk
      simp [alookup] at h
    · simp only [alookup, if_neg hk] at h
      simp [aset, hk, ih h]

theorem mem_aset {β : Type} (l : List (String × β)) (k : String) (v : β)
    (p : String × β) (h : p ∈ aset k v l) : p = (k, v) ∨ p ∈ l := by
  induction l with
  | nil => simpa [aset] using h
  | cons q rest ih =>
    obtain ⟨k', v'⟩ := q
    by_cases hk : k' = k
    · subst hk
      simp only [aset, if_pos rfl] at h
      rcases List.mem_cons.mp h with rfl | hm
      · exact Or.inl rfl
      · exact Or.inr (List.mem_cons_of_mem _ hm)
    · simp only [aset, if_neg hk] at h
      rcases List.mem_cons.mp h with rfl | hm
      · exact Or.inr (List.mem_cons_self _ _)
      · rcases ih hm with h1 | h2
        · exact Or.inl h1
        · exact Or.inr (List.mem_cons_of_mem _ h2)

theorem entrySum_aset_absent (l : JSObj) (k : String) (v : JSVal)
    (h : alookup k l = none) :
    entrySum (aset k v l) = entrySum l + entryVal (k, v) := by
  induction l with
  | nil => simp [aset, entrySum]
  | cons p rest ih =>
    obtain ⟨k', v'⟩ := p
    by_cases hk : k' = k
    · subst hk
      simp [alookup] at h
    · simp only [alookup, if_neg hk] at h
      simp only [aset, if_neg hk, entrySum, List.map_cons, List.sum_cons]
      rw [show (rest.map entryVal).sum = entrySum rest from rfl] at *
      rw [show ((aset k v rest).map entryVal).sum = entrySum (aset k v rest) from rfl]
      rw [ih h, add_assoc]

theorem entrySum_aset_present (l : JSObj) (k : String) (v w : JSVal)
    (h : alookup k l = some w) :
    entrySum (aset k v l) = entrySum l - entryVal (k, w) + entryVal (k, v) := by
  induction l with
  | nil => simp [alookup] at h
  | cons p rest ih =>
    obtain ⟨k', v'⟩ := p
    by_cases hk : k' = k
    · subst hk
      simp only [alookup, if_pos rfl] at h
      cases h
      simp [aset, entrySum]
      ring
    · simp only [alookup, if_neg hk] at h
      simp only [aset, if_neg hk, entrySum, List.map_cons, List.sum_cons]
      rw [show ((aset k v rest).map entryVal).sum = entrySum (aset k v rest) from rfl,
        ih h]
      rw [show (rest.map entryVal).sum = entrySum rest from rfl]
      ring

theorem amodify_not_found {β : Type} (k : String) (g : β → β) (l : List (String × β))
    (h : alookup k l = none) : amodify k g l = l := by
  induction l with
  | nil => rfl
  | cons p rest ih =>
    obtain ⟨k', v'⟩ := p
    by_cases hk : k' = k
    · subst hk
      simp [alookup] at h
    · simp only [alookup, if_neg hk] at h
      simp [amodify, hk, ih h]

theorem amodify_chartSum (k : String) (g : JSObj → JSObj) (acc : List (String × JSObj))
    (ob : JSObj) (h : alookup k acc = some ob) :
    chartSum (amodify k g acc) = chartSum acc - recTotal ob + recTotal (g ob) := by
  induction acc with
  | nil => simp [alookup] at h
  | cons p rest ih =>
    obtain ⟨k', ob'⟩ := p
    by_cases hk : k' = k
    · subst hk
      simp only [alookup, if_pos rfl] at h
      cases h
      simp [amodify, chartSum]
      ring
    · simp only [alookup, if_neg hk] at h
      simp only [amodify, if_neg hk, chartSum, List.map_cons, List.sum_cons]
      rw [show ((amodify k g rest).map (fun p => recTotal p.2)).sum =
        chartSum (amodify k g rest) from rfl, ih h]
      rw [show (rest.map (fun p => recTotal p.2)).sum = chartSum rest from rfl]
      ring

theorem mem_amodify {β : Type} (k : String) (g : β → β) (l : List (String × β))
    (p : String × β) (h : p ∈ amodify k g l) :
    p ∈ l ∨ ∃ q, (k, q) ∈ l ∧ p = (k, g q) := by
  induction l with
  | nil => simpa [amodify] using h
  | cons x rest ih =>
    obtain ⟨k', v'⟩ := x
    by_cases hk : k' = k
    · subst hk
      simp only [amodify, if_pos rfl] at h
      rcases List.mem_cons.mp h with rfl | hm
      · exact Or.inr ⟨v', List.mem_cons_self _ _, rfl⟩
      · exact Or.inl (List.mem_cons_of_mem _ hm)
    · simp only [amodify, if_neg hk] at h
      rcases List.mem_cons.mp h with rfl | hm
      · exact Or.inl (List.mem_cons_self _ _)
      · rcases ih hm with h1 | ⟨q, hq, rfl⟩
        · exact Or.inl (List.mem_cons_of_mem _ h1)
        · exact Or.inr ⟨q, List.mem_cons_of_mem _ hq, rfl⟩

theorem alookup_append_none {β : Type} (l r : List (String × β)) (k : String)
    (h : alookup k l = none) : alookup k (l ++ r) = alookup k r := by
  induction l with
  | nil => rfl
  | cons p rest ih =>
    obtain ⟨k', v'⟩ := p
    by_cases hk : k' = k
    · subst hk
      simp [alookup] at h
    · simp only [alookup, if_neg hk] at h
      simpa [alookup, hk] using ih h

/-! ## Time-series record invariants -/

theorem jsOrZero_addNum_num (q v : ℚ) :
    (jsOrZero (some (.num q))).addNum v = .num (q + v) := by
  by_cases hq : q = 0 <;> simp [jsOrZero, JSVal.truthy, JSVal.addNum, hq]

theorem recTotal_eq_entrySum (ob : JSObj) (h : recWF ob) :
    recTotal ob = entrySum ob := by
  rcases h with ⟨-, htot, -⟩
  simp [recTotal, htot]

theorem specRecordKeySum_eq_entrySum (ob : JSObj) :
    specRecordKeySum ob = entrySum ob := by
  rw [specRecordKeySum, foldl_add_eq_sum (fun p : String × JSVal =>
    match p.2 with | .num q => q | .str _ => 0), zero_add]
  induction ob with
  | nil => rfl
  | cons p rest ih =>
    obtain ⟨k, v⟩ := p
    by_cases hc : (k != "date" && k != "total") = true
    · have hk : ¬(k = "date" ∨ k = "total") := by
        rintro (rfl | rfl) <;> simp at hc
      simp [List.filter_cons, hc, entrySum, entryVal, hk, ih]
    · have hc' : (k != "date" && k != "total") = false := by simpa using hc
      have hk : k = "date" ∨ k = "total" := by
        rcases Bool.and_eq_false_iff.mp hc' with h1 | h2
        · exact Or.inl (by simpa using h1)
        · exact Or.inr (by simpa using h2)
      simp [List.filter_cons, hc', entrySum, entryVal, hk, ih]

theorem emptyRecord_wf (d : String) : recWF (emptyRecord d) := by
  refine ⟨by simp [emptyRecord], ?_, ?_⟩
  · simp [emptyRecord, alookup, entrySum, entryVal]
  · intro p hp hd
    rcases List.mem_cons.mp hp with rfl | hp'
    · exact absurd rfl hd
    · rcases List.mem_singleton.mp hp' with rfl
      exact ⟨0, rfl⟩

theorem entrySum_emptyRecord (d : String) : entrySum (emptyRecord d) = 0 := by
  simp [emptyRecord, entrySum, entryVal]

theorem addItem_wf (f : Filter) (i : AssetItem) (ob : JSObj) (hwf : recWF ob)
    (hkey : itemPasses f i = true → keyOK f i) :
    recWF (addItem f ob i) ∧
    entrySum (addItem f ob i) =
      entrySum ob + (if itemPasses f i = true then normValue i else 0) := by
  by_cases hp : itemPasses f i = true
  · obtain ⟨hkd, hkt⟩ := hkey hp
    obtain ⟨hnd, htot, hnum⟩ := hwf
    have htd : ("total" : String) ≠ itemKey f i := fun h => hkt h.symm
    -- the updated value at the item key is numeric and adds the contribution
    have hstep : ∃ q0 : ℚ,
        ((jsOrZero (alookup (itemKey f i) ob)).addNum (normValue i) = .num (q0 + normValue i)) ∧
        (entrySum (aset (itemKey f i) (.num (q0 + normValue i)) ob) =
          entrySum ob + normValue i) ∧
        ((aset (itemKey f i) (.num (q0 + normValue i)) ob).map Prod.fst).Nodup := by
      cases hlk : alookup (itemKey f i) ob with
      | none =>
        refine ⟨0, by simp [jsOrZero, JSVal.addNum], ?_, ?_⟩
        · rw [entrySum_aset_absent _ _ _ hlk]
          simp [entryVal, hkd, hkt]
        · rw [aset_keys_absent _ _ _ hlk]
          refine List.Nodup.append hnd (List.nodup_singleton _) ?_
          intro a ha hb
          rw [List.mem_singleton] at hb
          subst hb
          exact (alookup_eq_none_iff _ _).mp hlk ha
      | some w =>
        obtain ⟨q, rfl⟩ := hnum _ (alookup_mem _ _ _ hlk) hkd
        refine ⟨q, jsOrZero_addNum_num q (normValue i), ?_, ?_⟩
        · rw [entrySum_aset_present _ _ _ _ hlk]
          simp [entryVal, hkd, hkt]
          ring
        · rw [aset_keys_present _ _ _ (by simp [hlk])]
          exact hnd
    obtain ⟨q0, hval, hsum1, hnd1⟩ := hstep
    set ob1 := aset (itemKey f i) (.num (q0 + normValue i)) ob with hob1
    have htot1 : alookup "total" ob1 = some (.num (entrySum ob)) := by
      rw [hob1, alookup_aset_ne _ _ _ _ htd, htot]
    have hres : addItem f ob i =
        aset "total" (.num (entrySum ob + normValue i)) ob1 := by
      simp only [addItem, if_pos hp, ← hob1, hval, htot1]
      rfl
    have hsum2 : entrySum (aset "total" (.num (entrySum ob + normValue i)) ob1) =
        entrySum ob1 := by
      rw [entrySum_aset_present _ _ _ _ htot1]
      simp [entryVal]
    refine ⟨⟨?_, ?_, ?_⟩, ?_⟩
    · rw [hres, aset_keys_present _ _ _ (by simp [htot1])]
      exact hnd1
    · rw [hres, alookup_aset_self, hsum2, hsum1]
    · rw [hres]
      intro p hpm hpd
      rcases mem_aset _ _ _ _ hpm with rfl | hpm1
      · exact ⟨_, rfl⟩
      · rcases mem_aset _ _ _ _ hpm1 with rfl | hpm2
        · exact ⟨_, rfl⟩
        · exact hnum p hpm2 hpd
    · rw [hres, hsum2, hsum1, if_pos hp]
  · have hp' : itemPasses f i = false := by simpa using hp
    simp [addItem, hp', hwf, hp]

theorem foldItems_wf (f : Filter) :
    ∀ (items : List AssetItem) (ob : JSObj), recWF ob →
      (∀ i ∈ items, itemPasses f i = true → keyOK f i) →
      recWF (items.foldl (addItem f) ob) ∧
      entrySum (items.foldl (addItem f) ob) =
        entrySum ob + ((items.filter (itemPasses f)).map normValue).sum := by
  intro items
  induction items with
  | nil => intro ob hwf _; exact ⟨hwf, by simp⟩
  | cons i is ih =>
    intro ob hwf hkeys
    obtain ⟨hwf1, hsum1⟩ := addItem_wf f i ob hwf (hkeys i (List.mem_cons_self i is))
    obtain ⟨hwf2, hsum2⟩ := ih (addItem f ob i) hwf1
      (fun j hj => hkeys j (List.mem_cons_of_mem i hj))
    refine ⟨by simpa using hwf2, ?_⟩
    rw [List.foldl_cons] at *
    rw [hsum2, hsum1]
    by_cases hp : itemPasses f i = true
    · simp [List.filter_cons, hp, add_assoc]
    · have hp' : itemPasses f i = false := by simpa using hp
      simp [List.filter_cons, hp']

theorem addSnapshot_inv (f : Filter) (s : Snapshot) (acc : List (String × JSObj))
    (hwf : ∀ p ∈ acc, recWF p.2)
    (hkeys : passesMemberDate f s = true → ∀ i ∈ s.items,
      itemPasses f i = true → keyOK f i) :
    (∀ p ∈ addSnapshot f acc s, recWF p.2) ∧
    chartSum (addSnapshot f acc s) =
      chartSum acc + (if passesMemberDate f s = true
        then ((s.items.filter (itemPasses f)).map normValue).sum else 0) := by
  by_cases hp : passesMemberDate f s = true
  · have hkeys' := hkeys hp
    -- the record present at the snapshot's date after seeding
    have hmain : ∀ acc1 : List (String × JSObj), (∀ p ∈ acc1, recWF p.2) →
        ∀ ob, alookup s.date acc1 = some ob →
        (∀ p ∈ amodify s.date (fun o => s.items.foldl (addItem f) o) acc1, recWF p.2) ∧
        chartSum (amodify s.date (fun o => s.items.foldl (addItem f) o) acc1) =
          chartSum acc1 + ((s.items.filter (itemPasses f)).map normValue).sum := by
      intro acc1 hwf1 ob hob
      have hobwf : recWF ob := hwf1 (s.date, ob) (alookup_mem _ _ _ hob)
      obtain ⟨hwf2, hsum2⟩ := foldItems_wf f s.items ob hobwf hkeys'
      constructor
      · intro p hpm
        rcases mem_amodify _ _ _ _ hpm with hin | ⟨q, hq, rfl⟩
        · exact hwf1 p hin
        · exact (foldItems_wf f s.items q (hwf1 (s.date, q) hq) hkeys').1
      · rw [amodify_chartSum _ _ _ ob hob,
          recTotal_eq_entrySum _ (foldItems_wf f s.items ob hobwf hkeys').1,
          recTotal_eq_entrySum _ hobwf, hsum2]
        ring
    cases hlk : alookup s.date acc with
    | some ob =>
      have h1 : addSnapshot f acc s =
          amodify s.date (fun o => s.items.foldl (addItem f) o) acc := by
        simp [addSnapshot, hp, hlk]
      obtain ⟨ha, hb⟩ := hmain acc hwf ob hlk
      rw [h1] at *
      exact ⟨ha, by rw [hb, if_pos hp]⟩
    | none =>
      have h1 : addSnapshot f acc s =
          amodify s.date (fun o => s.items.foldl (addItem f) o)
            (acc ++ [(s.date, emptyRecord s.date)]) := by
        simp [addSnapshot, hp, hlk]
      have hwfx : ∀ p ∈ acc ++ [(s.date, emptyRecord s.date)], recWF p.2 := by
        intro p hpm
        rcases List.mem_append.mp hpm with h | h
        · exact hwf p h
        · rcases List.mem_singleton.mp h with rfl
          exact emptyRecord_wf s.date
      have hlk1 : alookup s.date (acc ++ [(s.date, emptyRecord s.date)]) =
          some (emptyRecord s.date) := by
        rw [alookup_append_none _ _ _ hlk]
        simp [alookup]
      obtain ⟨ha, hb⟩ := hmain _ hwfx _ hlk1
      rw [h1]
      refine ⟨ha, ?_⟩
      rw [hb, if_pos hp]
      have : chartSum (acc ++ [(s.date, emptyRecord s.date)]) = chartSum acc := by
        simp [chartSum, recTotal, emptyRecord, alookup]
      rw [this]
  · have hp' : passesMemberDate f s = false := by simpa using hp
    have h1 : addSnapshot f acc s = acc := by simp [addSnapshot, hp']
    rw [h1, hp']
    exact ⟨hwf, by simp⟩

theorem chart_fold_inv (f : Filter) :
    ∀ (snaps : List Snapshot) (acc : List (String × JSObj)),
      (∀ p ∈ acc, recWF p.2) →
      (∀ s ∈ snaps, passesMemberDate f s = true → ∀ i ∈ s.items,
        itemPasses f i = true → keyOK f i) →
      (∀ p ∈ snaps.foldl (addSnapshot f) acc, recWF p.2) ∧
      chartSum (snaps.foldl (addSnapshot f) acc) =
        chartSum acc + specMatchedNormSum f snaps := by
  intro snaps
  induction snaps with
  | nil => intro acc hwf _; exact ⟨hwf, by simp [specMatchedNormSum]⟩
  | cons s rest ih =>
    intro acc hwf hkeys
    obtain ⟨hwf1, hsum1⟩ := addSnapshot_inv f s acc hwf
      (hkeys s (List.mem_cons_self s rest))
    obtain ⟨hwf2, hsum2⟩ := ih (addSnapshot f acc s) hwf1
      (fun x hx => hkeys x (List.mem_cons_of_mem s hx))
    refine ⟨by simpa using hwf2, ?_⟩
    rw [List.foldl_cons] at *
    rw [hsum2, hsum1]
    by_cases hp : passesMemberDate f s = true
    · simp [specMatchedNormSum, List.filter_cons, hp, add_assoc]
    · have hp' : passesMemberDate f s = false := by simpa using hp
      simp [specMatchedNormSum, List.filter_cons, hp']

/-! ## C1 — time-series aggregator total invariant -/

/-- C1 counterexample: a single item whose category is the reserved key
`"total"` collides with the record's total field — the emitted record's total
is 200 (the 100 contribution counted twice), the per-key values sum to 0, and
the normalized sum of the matching items is 100, refuting both halves of the
claimed invariant as universally stated. -/
theorem c1_time_series_counterexample :
    ((chartData fAll [exSnap "2024-01-01" "Me" [exItem "total" "X" 100 "USD"]]).map
      recTotal).sum = 200 ∧
    ((chartData fAll [exSnap "2024-01-01" "Me" [exItem "total" "X" 100 "USD"]]).map
      specRecordKeySum).sum = 0 ∧
    specMatchedNormSum fAll [exSnap "2024-01-01" "Me" [exItem "total" "X" 100 "USD"]] =
      100 ∧
    (200 : ℚ) ≠ 0 ∧ (200 : ℚ) ≠ 100 := by
  refine ⟨?_, ?_, ?_, by norm_num, by norm_num⟩ <;>
    simp +decide [chartData, addSnapshot, addItem, passesMemberDate, itemPasses,
      itemKey, normValue, rateFor, jsToUpper, upChar, RATES, alookup, aset, amodify,
      emptyRecord, jsOrZero, JSVal.truthy, JSVal.addNum, jsSortBy, insertLe, jsLeB,
      jsLtB, lexLt, recDateStr, recTotal, specRecordKeySum, specMatchedNormSum,
      fAll, exSnap, exItem] <;> norm_num

/-- C1 (amended): provided no pivot key of a contributing item equals the
reserved record field names `"date"` or `"total"`, every emitted record's
total equals the sum of its per-key values, and the totals over all dates sum
to the normalized sum of every item matching the filter (no double counting,
no drops). -/
theorem c1_time_series_total_invariant_amended (f : Filter) (snapshots : List Snapshot)
    (hkeys : ∀ s ∈ snapshots, passesMemberDate f s = true → ∀ i ∈ s.items,
      itemPasses f i = true → itemKey f i ≠ "date" ∧ itemKey f i ≠ "total") :
    (∀ ob ∈ chartData f snapshots, recTotal ob = specRecordKeySum ob) ∧
    ((chartData f snapshots).map recTotal).sum = specMatchedNormSum f snapshots := by
  have h := chart_fold_inv f snapshots [] (by simp) hkeys
  constructor
  · intro ob hob
    have hmem : ob ∈ (snapshots.foldl (addSnapshot f) []).map Prod.snd := by
      have hperm := jsSortBy_perm (fun a b => jsLeB (recDateStr a) (recDateStr b))
        ((snapshots.foldl (addSnapshot f) []).map Prod.snd)
      exact hperm.mem_iff.mp (by simpa [chartData] using hob)
    obtain ⟨p, hp, rfl⟩ := List.mem_map.mp hmem
    rw [specRecordKeySum_eq_entrySum]
    exact recTotal_eq_entrySum _ (h.1 p hp)
  · have hsum : ((chartData f snapshots).map recTotal).sum =
        chartSum (snapshots.foldl (addSnapshot f) []) := by
      have hperm := (jsSortBy_perm (fun a b => jsLeB (recDateStr a) (recDateStr b))
        ((snapshots.foldl (addSnapshot f) []).map Prod.snd)).map recTotal
      rw [chartData, hperm.sum_eq, chartSum, List.map_map]
      rfl
    rw [hsum, h.2]
    simp [chartSum]

/-- Witness for C1 (amended), at the specification's own example scenario:
two Bank/Chase snapshots; every key is `"Bank"`, so the hypothesis holds, and
the totals sum to the normalized sum of all items. -/
theorem c1_time_series_total_invariant_amended_witness :
    ((chartData fAll [exSnap "2024-01-01" "Me" [exItem "Bank" "Chase" 1000 "USD"],
        exSnap "2024-02-01" "Me" [exItem "Bank" "Chase" 1200 "USD"]]).map
      recTotal).sum =
      specMatchedNormSum fAll
        [exSnap "2024-01-01" "Me" [exItem "Bank" "Chase" 1000 "USD"],
         exSnap "2024-02-01" "Me" [exItem "Bank" "Chase" 1200 "USD"]] :=
  (c1_time_series_total_invariant_amended fAll
      [exSnap "2024-01-01" "Me" [exItem "Bank" "Chase" 1000 "USD"],
       exSnap "2024-02-01" "Me" [exItem "Bank" "Chase" 1200 "USD"]]
      (by decide)).2

/-! ## Grouping and merge-engine lemmas -/

theorem groupPush_keys (k : String) (it : BulkImportItem) :
    ∀ acc : List (String × List BulkImportItem),
      (groupPush k it acc).map Prod.fst =
        (if k ∈ acc.map Prod.fst then acc.map Prod.fst else acc.map Prod.fst ++ [k]) := by
  intro acc
  induction acc with
  | nil => simp [groupPush]
  | cons p rest ih =>
    obtain ⟨k', l⟩ := p
    by_cases h : k' = k
    · subst h
      simp [groupPush]
    · have hne : ¬ k = k' := fun hh => h hh.symm
      by_cases hm : k ∈ rest.map Prod.fst
      · simp [groupPush, h, ih, hm, hne]
      · simp [groupPush, h, ih, hm, hne]

theorem groupByKey_fold_nodup :
    ∀ (rows : List BulkImportItem) (acc : List (String × List BulkImportItem)),
      (acc.map Prod.fst).Nodup →
      ((rows.foldl (fun acc it => groupPush (rowKey it) it acc) acc).map Prod.fst).Nodup := by
  intro rows
  induction rows with
  | nil => intro acc h; exact h
  | cons r rest ih =>
    intro acc h
    refine ih _ ?_
    rw [groupPush_keys]
    split
    · exact h
    · exact List.Nodup.append h (List.nodup_singleton _) (by
        intro a ha hb
        rw [List.mem_singleton] at hb
        subst hb
        next hnot => exact hnot ha)

theorem groupByKey_nodup (rows : List BulkImportItem) :
    ((groupByKey rows).map Prod.fst).Nodup :=
  groupByKey_fold_nodup rows [] (by simp)

theorem mem_groupByKey_key :
    ∀ (rows : List BulkImportItem) (acc : List (String × List BulkImportItem))
      (g : String × List BulkImportItem),
      g ∈ rows.foldl (fun acc it => groupPush (rowKey it) it acc) acc →
      g.1 ∈ acc.map Prod.fst ∨ ∃ r ∈ rows, rowKey r = g.1 := by
  intro rows
  induction rows with
  | nil =>
    intro acc g hg
    exact Or.inl (List.mem_map_of_mem Prod.fst hg)
  | cons r rest ih =>
    intro acc g hg
    rcases ih _ g hg with hin | ⟨r', hr', hk⟩
    · rw [groupPush_keys] at hin
      by_cases hm : rowKey r ∈ acc.map Prod.fst
      · rw [if_pos hm] at hin
        exact Or.inl hin
      · rw [if_neg hm] at hin
        rcases List.mem_append.mp hin with h1 | h2
        · exact Or.inl h1
        · rw [List.mem_singleton] at h2
          exact Or.inr ⟨r, List.mem_cons_self r rest, h2.symm⟩
    · exact Or.inr ⟨r', List.mem_cons_of_mem r hr', hk⟩

theorem groupPush_lookup_self (k : String) (it : BulkImportItem) :
    ∀ acc, alookup k (groupPush k it acc) = some ((alookup k acc).getD [] ++ [it]) := by
  intro acc
  induction acc with
  | nil => simp [groupPush, alookup]
  | cons p rest ih =>
    obtain ⟨k', l⟩ := p
    by_cases h : k' = k
    · subst h
      simp [groupPush, alookup]
    · simp [groupPush, alookup, h, ih]

theorem groupPush_lookup_ne (k : String) (it : BulkImportItem) (k' : String)
    (hne : k' ≠ k) : ∀ acc, alookup k' (groupPush k it acc) = alookup k' acc := by
  have hkk : ¬ k = k' := fun h => hne h.symm
  intro acc
  induction acc with
  | nil => simp [groupPush, alookup, hkk]
  | cons p rest ih =>
    obtain ⟨k'', l⟩ := p
    by_cases h : k'' = k
    · subst h
      simp [groupPush, alookup, hkk]
    · by_cases h2 : k'' = k'
      · simp [groupPush, alookup, h, h2, hne]
      · simp [groupPush, alookup, h, h2, ih]

theorem groupByKey_fold_lookup :
    ∀ (rows : List BulkImportItem) (acc : List (String × List BulkImportItem))
      (k : String),
      alookup k (rows.foldl (fun acc it => groupPush (rowKey it) it acc) acc) =
        (match alookup k acc with
         | some l0 => some (l0 ++ rows.filter (fun r => rowKey r == k))
         | none =>
           if rows.filter (fun r => rowKey r == k) = [] then none
           else some (rows.filter (fun r => rowKey r == k))) := by
  intro rows
  induction rows with
  | nil =>
    intro acc k
    cases h : alookup k acc <;> simp [h]
  | cons r rest ih =>
    intro acc k
    rw [List.foldl_cons, ih]
    by_cases hk : rowKey r = k
    · subst hk
      rw [groupPush_lookup_self]
      cases h : alookup (rowKey r) acc with
      | some l0 => simp [h, List.filter_cons]
      | none => simp [h, List.filter_cons]
    · rw [groupPush_lookup_ne _ _ _ (fun h => hk h.symm)]
      have : (rowKey r == k) = false := by
        simpa using hk
      cases h : alookup k acc <;> simp [h, List.filter_cons, this]

theorem groupByKey_lookup (rows : List BulkImportItem) (k : String) :
    alookup k (groupByKey rows) =
      (if rows.filter (fun r => rowKey r == k) = [] then none
       else some (rows.filter (fun r => rowKey r == k))) := by
  rw [groupByKey, groupByKey_fold_lookup rows [] k]
  rfl

theorem replaceFirst_none {α : Type} (p : α → Bool) (g : α → α) :
    ∀ l : List α, replaceFirst p g l = none → ∀ x ∈ l, p x = false := by
  intro l
  induction l with
  | nil => intro _ x hx; exact absurd hx (List.not_mem_nil x)
  | cons y rest ih =>
    intro h x hx
    by_cases hy : p y = true
    · simp [replaceFirst, hy] at h
    · have hy' : p y = false := by simpa using hy
      simp only [replaceFirst, hy', Bool.false_eq_true, if_neg, if_false] at h
      rcases List.mem_cons.mp hx with rfl | hx'
      · exact hy'
      · rcases hrec : replaceFirst p g rest with _ | l'
        · exact ih hrec x hx'
        · rw [hrec] at h
          simp at h

theorem replaceFirst_some {α : Type} (p : α → Bool) (g : α → α) :
    ∀ (l l' : List α), replaceFirst p g l = some l' →
      ∃ pre x post, l = pre ++ x :: post ∧ p x = true ∧ (∀ y ∈ pre, p y = false) ∧
        l' = pre ++ g x :: post := by
  intro l
  induction l with
  | nil => intro l' h; simp [replaceFirst] at h
  | cons y rest ih =>
    intro l' h
    by_cases hy : p y = true
    · simp only [replaceFirst, if_pos hy, Option.some.injEq] at h
      exact ⟨[], y, rest, rfl, hy, by simp, h.symm⟩
    · have hy' : p y = false := by simpa using hy
      simp only [replaceFirst, hy', Bool.false_eq_true, if_false] at h
      rcases hrec : replaceFirst p g rest with _ | l''
      · rw [hrec] at h
        simp at h
      · rw [hrec] at h
        have h2 : y :: l'' = l' := by simpa using h
        obtain ⟨pre, x, post, hsplit, hpx, hpre, hrepl⟩ := ih l'' hrec
        refine ⟨y :: pre, x, post, ?_, hpx, ?_, ?_⟩
        · rw [hsplit]; rfl
        · intro z hz
          rcases List.mem_cons.mp hz with rfl | hz'
          · exact hy'
          · exact hpre z hz'
        · rw [← h2, hrepl]; rfl

theorem qKeys_of_uniq : ∀ snaps : List Snapshot, uniqKeys snaps → qKeys snaps := by
  intro snaps
  induction snaps with
  | nil => intro _ d m; simp [selRaw]
  | cons a rest ih =>
    intro h d m
    rcases List.pairwise_cons.mp h with ⟨ha, hrest⟩
    by_cases hma : keyPred d m a = true
    · have hnil : selRaw rest d m = [] := by
        rw [selRaw, List.filter_eq_nil_iff]
        intro x hx hxm
        have h1 : a.date = d ∧ a.familyMember = m := by simpa [keyPred] using hma
        have h2 : x.date = d ∧ x.familyMember = m := by simpa [keyPred] using hxm
        exact ha x hx ⟨h1.1.trans h2.1.symm, h1.2.trans h2.2.symm⟩
      have hnil2 : rest.filter (keyPred d m) = [] := hnil
      simp [selRaw, List.filter_cons, hma, hnil2]
    · have hma2 : keyPred d m a = false := by simpa using hma
      have := ih hrest d m
      simpa [selRaw, List.filter_cons, hma2] using this

theorem enumFrom_map_view (fresh : Nat) :
    ∀ (l : List BulkImportItem) (n : Nat),
      ((l.enumFrom n).map (fun p =>
        ({ id := fresh + p.1, category := p.2.category, name := p.2.name,
           value := p.2.value, currency := p.2.currency, tags := [] } : AssetItem))).map
        itemView = l.map rowView := by
  intro l
  induction l with
  | nil => intro n; rfl
  | cons r rest ih =>
    intro n
    have h : (r :: rest).enumFrom n = (n, r) :: rest.enumFrom (n + 1) := rfl
    rw [h, List.map_cons, List.map_cons, List.map_cons, ih (n + 1)]
    rfl

theorem groupAssets_view (fresh : Nat) (items : List BulkImportItem) :
    (groupAssets fresh items).map itemView = items.map rowView := by
  rw [groupAssets, show items.enum = items.enumFrom 0 from rfl]
  exact enumFrom_map_view fresh items 0

theorem groupAssets_values (fresh : Nat) (items : List BulkImportItem) :
    (groupAssets fresh items).map (fun a => a.value) = items.map (fun r => r.value) := by
  have h := congrArg (List.map (fun t : String × String × ℚ × String => t.2.2.1))
    (groupAssets_view fresh items)
  simpa [List.map_map, Function.comp_def, itemView, rowView] using h

theorem groupAssets_total (fresh : Nat) (items : List BulkImportItem) :
    (groupAssets fresh items).foldl (fun sum a => sum + a.value) 0 =
      (items.map (fun r => r.value)).sum := by
  rw [foldl_add_eq_sum (fun a : AssetItem => a.value), zero_add, groupAssets_values]

theorem mergeGroup_eq (snaps : List Snapshot) (fresh : Nat) (key : String)
    (items : List BulkImportItem) :
    (mergeGroup snaps fresh key items).1 =
      (match replaceFirst (keyPred (keyDate key) (keyMember key))
          (overwriteSnap (groupAssets fresh items)) snaps with
       | some l => l
       | none => snaps ++ [appendedSnap (fresh + items.length) (keyDate key)
          (keyMember key) (groupAssets fresh items)]) := by
  cases h : replaceFirst (keyPred (keyDate key) (keyMember key))
      (overwriteSnap (groupAssets fresh items)) snaps with
  | some l => simp [mergeGroup, h]
  | none => simp [mergeGroup, h]

theorem keyPred_false_of_ne (d m d' m' : String) (s : Snapshot) (hs1 : s.date = d)
    (hs2 : s.familyMember = m) (hne : ¬(d' = d ∧ m' = m)) :
    keyPred d' m' s = false := by
  by_cases hb : keyPred d' m' s = true
  · have h2 : s.date = d' ∧ s.familyMember = m' := by simpa [keyPred] using hb
    exact absurd ⟨h2.1.symm.trans hs1, h2.2.symm.trans hs2⟩ hne
  · simpa using hb

theorem snapView_overwriteSnap (fresh : Nat) (items : List BulkImportItem)
    (x : Snapshot) :
    snapView (overwriteSnap (groupAssets fresh items) x) =
      (x.date, x.familyMember, items.map rowView, (items.map (fun r => r.value)).sum) := by
  simp only [snapView, overwriteSnap]
  rw [groupAssets_view, groupAssets_total]

theorem snapView_appendedSnap (fresh idv : Nat) (items : List BulkImportItem)
    (d m : String) :
    snapView (appendedSnap idv d m (groupAssets fresh items)) =
      (d, m, items.map rowView, (items.map (fun r => r.value)).sum) := by
  simp only [snapView, appendedSnap]
  rw [groupAssets_view, groupAssets_total]

theorem mergeGroup_sel (snaps : List Snapshot) (fresh : Nat) (key : String)
    (items : List BulkImportItem) (hq : qKeys snaps) :
    ((selRaw ((mergeGroup snaps fresh key items).1) (keyDate key) (keyMember key)).map
        snapView =
      [(keyDate key, keyMember key, items.map rowView,
        (items.map (fun r => r.value)).sum)]) ∧
    (∀ d' m', ¬(d' = keyDate key ∧ m' = keyMember key) →
      selRaw ((mergeGroup snaps fresh key items).1) d' m' = selRaw snaps d' m') ∧
    qKeys ((mergeGroup snaps fresh key items).1) := by
  cases hrf : replaceFirst (keyPred (keyDate key) (keyMember key))
      (overwriteSnap (groupAssets fresh items)) snaps with
  | none =>
    have hres : (mergeGroup snaps fresh key items).1 =
        snaps ++ [appendedSnap (fresh + items.length) (keyDate key) (keyMember key)
          (groupAssets fresh items)] := by
      rw [mergeGroup_eq, hrf]
    have hall := replaceFirst_none _ _ snaps hrf
    have hnone : selRaw snaps (keyDate key) (keyMember key) = [] := by
      rw [selRaw, List.filter_eq_nil_iff]
      intro x hx hxm
      rw [hall x hx] at hxm
      exact Bool.noConfusion hxm
    have happ : keyPred (keyDate key) (keyMember key)
        (appendedSnap (fresh + items.length) (keyDate key) (keyMember key)
          (groupAssets fresh items)) = true := by
      simp [keyPred, appendedSnap]
    have hun : ∀ d' m', ¬(d' = keyDate key ∧ m' = keyMember key) →
        selRaw ((mergeGroup snaps fresh key items).1) d' m' = selRaw snaps d' m' := by
      intro d' m' hne
      rw [hres, selRaw, List.filter_append, selRaw]
      rw [show ([appendedSnap (fresh + items.length) (keyDate key) (keyMember key)
          (groupAssets fresh items)].filter (keyPred d' m')) = [] from by
        simp [List.filter_cons,
          keyPred_false_of_ne (keyDate key) (keyMember key) d' m'
            (appendedSnap (fresh + items.length) (keyDate key) (keyMember key)
              (groupAssets fresh items)) rfl rfl hne]]
      rw [List.append_nil]
    refine ⟨?_, hun, ?_⟩
    · rw [hres, selRaw, List.filter_append]
      rw [show snaps.filter (keyPred (keyDate key) (keyMember key)) = [] from hnone]
      rw [List.nil_append, List.filter_cons, if_pos happ, List.filter_nil,
        List.map_cons, List.map_nil, snapView_appendedSnap]
    · intro d' m'
      by_cases hdm : d' = keyDate key ∧ m' = keyMember key
      · obtain ⟨rfl, rfl⟩ := hdm
        rw [hres, selRaw, List.filter_append]
        rw [show snaps.filter (keyPred (keyDate key) (keyMember key)) = [] from hnone]
        simp [List.filter_cons, happ]
      · rw [hun d' m' hdm]
        exact hq d' m'
  | some l =>
    have hres : (mergeGroup snaps fresh key items).1 = l := by
      rw [mergeGroup_eq, hrf]
    obtain ⟨pre, x, post, hsplit, hpx, hpre, hrepl⟩ :=
      replaceFirst_some _ _ snaps l hrf
    have hx2 : x.date = keyDate key ∧ x.familyMember = keyMember key := by
      simpa [keyPred] using hpx
    have hov : ∀ d' m' : String,
        keyPred d' m' (overwriteSnap (groupAssets fresh items) x) =
          keyPred d' m' x := fun d' m' => rfl
    have hprenil : pre.filter (keyPred (keyDate key) (keyMember key)) = [] := by
      rw [List.filter_eq_nil_iff]
      intro y hy hym
      rw [hpre y hy] at hym
      exact Bool.noConfusion hym
    have hpost : post.filter (keyPred (keyDate key) (keyMember key)) = [] := by
      have hlen := hq (keyDate key) (keyMember key)
      rw [selRaw, hsplit, List.filter_append, List.filter_cons, if_pos hpx, hprenil,
        List.nil_append, List.length_cons] at hlen
      exact List.length_eq_zero.mp (by omega)
    have hun : ∀ d' m', ¬(d' = keyDate key ∧ m' = keyMember key) →
        selRaw ((mergeGroup snaps fresh key items).1) d' m' = selRaw snaps d' m' := by
      intro d' m' hne
      have hxno : keyPred d' m' x = false :=
        keyPred_false_of_ne _ _ _ _ x hx2.1 hx2.2 hne
      rw [hres, hrepl, hsplit, selRaw, selRaw, List.filter_append, List.filter_append,
        List.filter_cons, List.filter_cons, hov, hxno]
      simp
    refine ⟨?_, hun, ?_⟩
    · rw [hres, hrepl, selRaw, List.filter_append, hprenil, List.nil_append,
        List.filter_cons]
      rw [show keyPred (keyDate key) (keyMember key)
        (overwriteSnap (groupAssets fresh items) x) = true from (hov _ _).trans hpx]
      rw [if_pos rfl, hpost, List.map_cons, List.map_nil, snapView_overwriteSnap,
        hx2.1, hx2.2]
    · intro d' m'
      by_cases hdm : d' = keyDate key ∧ m' = keyMember key
      · obtain ⟨rfl, rfl⟩ := hdm
        rw [hres, hrepl, selRaw, List.filter_append, hprenil, List.nil_append,
          List.filter_cons]
        rw [show keyPred (keyDate key) (keyMember key)
          (overwriteSnap (groupAssets fresh items) x) = true from (hov _ _).trans hpx]
        rw [if_pos rfl, hpost]
        simp
      · rw [hun d' m' hdm]
        exact hq d' m'

theorem goodRow_keyDate (r : BulkImportItem) (h : goodRow r) :
    keyDate (rowKey r) = r.date := by
  have h2 : jsSplit (rowKey r) "::" = [r.date, r.familyMember] := h
  rw [keyDate, h2]
  rfl

theorem goodRow_keyMember (r : BulkImportItem) (h : goodRow r) :
    keyMember (rowKey r) = r.familyMember := by
  have h2 : jsSplit (rowKey r) "::" = [r.date, r.familyMember] := h
  rw [keyMember, h2]
  rfl

theorem rowsOfKey_eq_filter (rows : List BulkImportItem) (r : BulkImportItem)
    (hr : goodRow r) (hall : ∀ x ∈ rows, goodRow x) :
    rows.filter (fun x => rowKey x == rowKey r) =
      rowsOfKey rows r.date r.familyMember := by
  rw [rowsOfKey]
  apply List.filter_congr
  intro x hx
  rw [Bool.eq_iff_iff]
  simp only [beq_iff_eq, Bool.and_eq_true]
  constructor
  · intro hk
    have hxg : jsSplit (rowKey x) "::" = [x.date, x.familyMember] := hall x hx
    have hrg : jsSplit (rowKey r) "::" = [r.date, r.familyMember] := hr
    have h3 : ([x.date, x.familyMember] : List String) = [r.date, r.familyMember] := by
      rw [← hxg, hk, hrg]
    simpa using h3
  · intro hc
    rw [rowKey, rowKey, hc.1, hc.2]

theorem merge_fold_sel :
    ∀ (groups : List (String × List BulkImportItem)) (snaps : List Snapshot)
      (fresh : Nat), qKeys snaps → ((groups.map Prod.fst).Nodup) →
      (∀ g ∈ groups, g.1 = keyDate g.1 ++ "::" ++ keyMember g.1) →
      qKeys ((groups.foldl (fun acc g => mergeGroup acc.1 acc.2 g.1 g.2)
        (snaps, fresh)).1) ∧
      (∀ g ∈ groups,
        selView ((groups.foldl (fun acc g => mergeGroup acc.1 acc.2 g.1 g.2)
            (snaps, fresh)).1) (keyDate g.1) (keyMember g.1) =
          [(keyDate g.1, keyMember g.1, g.2.map rowView,
            (g.2.map (fun r => r.value)).sum)]) ∧
      (∀ d m, (∀ g ∈ groups, ¬(d = keyDate g.1 ∧ m = keyMember g.1)) →
        selRaw ((groups.foldl (fun acc g => mergeGroup acc.1 acc.2 g.1 g.2)
          (snaps, fresh)).1) d m = selRaw snaps d m) := by
  intro groups
  induction groups with
  | nil =>
    intro snaps fresh hq _ _
    exact ⟨hq, by simp, fun d m _ => rfl⟩
  | cons g gs ih =>
    intro snaps fresh hq hnd hgood
    obtain ⟨hsel1, hun1, hq1⟩ := mergeGroup_sel snaps fresh g.1 g.2 hq
    have hfold : (g :: gs).foldl (fun acc g => mergeGroup acc.1 acc.2 g.1 g.2)
        (snaps, fresh) = gs.foldl (fun acc g => mergeGroup acc.1 acc.2 g.1 g.2)
        ((mergeGroup snaps fresh g.1 g.2).1, (mergeGroup snaps fresh g.1 g.2).2) := rfl
    rw [List.map_cons, List.nodup_cons] at hnd
    obtain ⟨hgnot, hndt⟩ := hnd
    have hgoodt : ∀ g' ∈ gs, g'.1 = keyDate g'.1 ++ "::" ++ keyMember g'.1 :=
      fun g' hg' => hgood g' (List.mem_cons_of_mem g hg')
    obtain ⟨hqF, hselF, hunF⟩ := ih ((mergeGroup snaps fresh g.1 g.2).1)
      ((mergeGroup snaps fresh g.1 g.2).2) hq1 hndt hgoodt
    rw [hfold]
    refine ⟨hqF, ?_, ?_⟩
    · intro g' hg'
      rcases List.mem_cons.mp hg' with hEq | hmem
      · subst hEq
        have hdist : ∀ g'' ∈ gs,
            ¬(keyDate g'.1 = keyDate g''.1 ∧ keyMember g'.1 = keyMember g''.1) := by
          intro g'' hg'' hc
          have hkeq : g'.1 = g''.1 := by
            rw [hgood g' (List.mem_cons_self g' gs), hc.1, hc.2,
              ← hgood g'' (List.mem_cons_of_mem g' hg'')]
          exact hgnot (hkeq ▸ List.mem_map_of_mem Prod.fst hg'')
        rw [selView, hunF (keyDate g'.1) (keyMember g'.1) hdist]
        exact hsel1
      · exact hselF g' hmem
    · intro d m hall
      rw [hunF d m (fun g' hg' => hall g' (List.mem_cons_of_mem g hg')),
        hun1 d m (hall g (List.mem_cons_self g gs))]

theorem handleBulkImport_snapshots (st : AppState) (rows : List BulkImportItem) :
    (handleBulkImport st rows).snapshots =
      ((groupByKey rows).foldl (fun acc g => mergeGroup acc.1 acc.2 g.1 g.2)
        (st.snapshots, st.fresh)).1 := rfl

/-- C2: counterexample to idempotence at full snapshot equality. Importing one
row into the empty state attaches the note "Imported via Bulk Entry"; importing
the same row again overwrites it with the note "Updated via Bulk Import", so
the two runs do NOT produce the same resulting snapshot verbatim. -/
theorem c2_bulk_import_counterexample :
    (handleBulkImport (handleBulkImport exState
        [exRow "2024-01-01" "Bank" "X" 5 "Me" "USD"])
        [exRow "2024-01-01" "Bank" "X" 5 "Me" "USD"]).snapshots.map
        (fun s => s.note) ≠
      (handleBulkImport exState
        [exRow "2024-01-01" "Bank" "X" 5 "Me" "USD"]).snapshots.map
        (fun s => s.note) := by
  simp +decide [handleBulkImport, registerValues, regStep, groupByKey, groupPush,
    rowKey, mergeGroup, replaceFirst, groupAssets, keyDate, keyMember, keyPred,
    overwriteSnap, appendedSnap, jsSplit, splitZ, stripPref, jsTrim, exState, exRow]

/-- C2 (amended): provided the prior snapshot collection holds at most one
snapshot per (date, familyMember) key and every staged row's composite
`date::familyMember` key splits back into its two fields, a bulk import leaves
exactly one snapshot per staged key, whose observable content (date, member,
item category/name/value/currency list, total) is exactly that key's staged
rows with their raw value sum — and re-importing the same rows reproduces the
same observable content at every key (overwrite, not duplication; the
generated ids and the note text do differ between the two runs). -/
theorem c2_bulk_import_idempotent_amended (st : AppState)
    (rows : List BulkImportItem)
    (h1 : uniqKeys st.snapshots) (h2 : ∀ r ∈ rows, goodRow r) :
    (∀ r ∈ rows,
      selView (handleBulkImport st rows).snapshots r.date r.familyMember =
        [groupView rows r.date r.familyMember]) ∧
    (∀ d m,
      selView (handleBulkImport (handleBulkImport st rows) rows).snapshots d m =
        selView (handleBulkImport st rows).snapshots d m) := by
  have hq0 : qKeys st.snapshots := qKeys_of_uniq _ h1
  have hnd := groupByKey_nodup rows
  have hgood : ∀ g ∈ groupByKey rows, g.1 = keyDate g.1 ++ "::" ++ keyMember g.1 := by
    intro g hg
    rcases mem_groupByKey_key rows [] g (by simpa [groupByKey] using hg) with
      hc | ⟨r, hr, hk⟩
    · simp at hc
    · rw [← hk, goodRow_keyDate r (h2 r hr), goodRow_keyMember r (h2 r hr)]
      rfl
  obtain ⟨hqA, hselA, hunA⟩ :=
    merge_fold_sel (groupByKey rows) st.snapshots st.fresh hq0 hnd hgood
  have hsnapA := handleBulkImport_snapshots st rows
  have hqA2 : qKeys (handleBulkImport st rows).snapshots := by
    rw [hsnapA]; exact hqA
  obtain ⟨hqB, hselB, hunB⟩ :=
    merge_fold_sel (groupByKey rows) (handleBulkImport st rows).snapshots
      (handleBulkImport st rows).fresh hqA2 hnd hgood
  have hsnapB := handleBulkImport_snapshots (handleBulkImport st rows) rows
  constructor
  · intro r hr
    have hgr := h2 r hr
    have hmem : (rowKey r, rows.filter (fun x => rowKey x == rowKey r)) ∈
        groupByKey rows := by
      apply alookup_mem
      rw [groupByKey_lookup]
      have hne : rows.filter (fun x => rowKey x == rowKey r) ≠ [] := by
        intro hnil
        have hin : r ∈ rows.filter (fun x => rowKey x == rowKey r) := by
          simp [List.mem_filter, hr]
        rw [hnil] at hin
        exact (List.not_mem_nil r) hin
      rw [if_neg hne]
    have hsv := hselA _ hmem
    rw [goodRow_keyDate r hgr, goodRow_keyMember r hgr,
      rowsOfKey_eq_filter rows r hgr h2] at hsv
    rw [hsnapA, groupView]
    exact hsv
  · intro d m
    by_cases hex : ∃ g ∈ groupByKey rows, d = keyDate g.1 ∧ m = keyMember g.1
    · obtain ⟨g, hg, rfl, rfl⟩ := hex
      rw [hsnapB, hselB _ hg, hsnapA, hselA _ hg]
    · have hall : ∀ g ∈ groupByKey rows, ¬(d = keyDate g.1 ∧ m = keyMember g.1) := by
        intro g hg hc
        exact hex ⟨g, hg, hc.1, hc.2⟩
      rw [hsnapB]
      simp only [selView]
      rw [hunB d m hall]

/-- Witness for C2: one concrete staged row into the empty state; its key holds
exactly the staged group view afterwards, with all hypotheses discharged. -/
theorem c2_bulk_import_idempotent_amended_witness :
    selView (handleBulkImport exState
        [exRow "2024-01-01" "Bank" "X" 5 "Me" "USD"]).snapshots "2024-01-01" "Me" =
      [groupView [exRow "2024-01-01" "Bank" "X" 5 "Me" "USD"] "2024-01-01" "Me"] :=
  (c2_bulk_import_idempotent_amended exState
      [exRow "2024-01-01" "Bank" "X" 5 "Me" "USD"]
      (List.Pairwise.nil)
      (by
        intro r hr
        rw [List.mem_singleton] at hr
        subst hr
        show jsSplit (rowKey (exRow "2024-01-01" "Bank" "X" 5 "Me" "USD")) "::" =
          ["2024-01-01", "Me"]
        decide)).1
    (exRow "2024-01-01" "Bank" "X" 5 "Me" "USD") (List.mem_singleton.mpr rfl)

end WealthTrack
